import Mathlib

/-!
Verification development for the golibri EPUB metadata editor core
(package `epub`: reader.go, metadata.go, writer.go, opf_writer.go).

Modelling conventions:
* Go strings are lists of characters (`Str`); Go byte slices are lists of
  naturals (`List Nat`).
* The zip container is a list of entry records carrying the header fields and
  the raw compressed payload bytes; `Save` is modelled as the list of write
  operations it performs on the output archive.
* Go maps used only through lookup are association lists with
  last-insert-wins update.
Each definition is translated from the correspondingly named Go function.
-/

namespace Epub

/-- Go strings, modelled as lists of characters. -/
abbrev Str := List Char

/-- Builds a `Str` from a Lean string literal. -/
def str (s : String) : Str := s.data

/-- Whitespace test used by `strings.TrimSpace` (ASCII range, which is the
only range exercised by this code base). -/
def goIsSpace (c : Char) : Bool :=
  c = ' ' || c = '\t' || c = '\n' || c = '\r' || c = '\x0b' || c = '\x0c'

/-- Model of Go `strings.TrimSpace`. -/
def trimSpaceL (s : Str) : Str :=
  ((s.dropWhile goIsSpace).reverse.dropWhile goIsSpace).reverse

/-- Worker for `strings.Split` with the non-empty separator `sc :: srest`;
`cur` accumulates the current piece in reverse.  `fuel` bounds the number of
steps and is initialized to the source length; since every step consumes at
least one source character the fuel-exhaustion row is unreachable (it is
present only to keep the recursion structural, hence kernel-computable). -/
def splitOnAux (sc : Char) (srest : Str) : Nat → Str → Str → List Str
  | _, [], cur => [cur.reverse]
  | 0, s, cur => [cur.reverse ++ s]
  | fuel + 1, c :: cs, cur =>
    if (sc :: srest).isPrefixOf (c :: cs) then
      cur.reverse :: splitOnAux sc srest fuel (cs.drop srest.length) []
    else
      splitOnAux sc srest fuel cs (c :: cur)

/-- Model of Go `strings.Split`.  The empty-separator case (split into single
characters in Go) never occurs in this code base and is mapped to `[s]`. -/
def splitOnL (sep s : Str) : List Str :=
  match sep with
  | [] => [s]
  | sc :: srest => splitOnAux sc srest s.length s []

/-- Worker for `strings.SplitN` with separator `sc :: srest`; `m` is the
number of splits still allowed, `fuel` as in `splitOnAux` (the exhaustion
row is unreachable). -/
def splitNAux (sc : Char) (srest : Str) : Nat → Nat → Str → Str → List Str
  | _, _, [], cur => [cur.reverse]
  | _, 0, s, cur => [cur.reverse ++ s]
  | 0, _ + 1, s, cur => [cur.reverse ++ s]
  | m + 1, fuel + 1, c :: cs, cur =>
    if (sc :: srest).isPrefixOf (c :: cs) then
      cur.reverse :: splitNAux sc srest m fuel (cs.drop srest.length) []
    else
      splitNAux sc srest (m + 1) fuel cs (c :: cur)

/-- Model of Go `strings.SplitN` (only called with `n = 2` and `n = 3` and a
non-empty separator in this code base). -/
def splitNL (sep : Str) (n : Nat) (s : Str) : List Str :=
  match sep, n with
  | _, 0 => []
  | [], _ + 1 => [s]
  | sc :: srest, m + 1 => splitNAux sc srest m s.length s []

/-- Model of Go `strings.Contains`. -/
def containsL : Str → Str → Bool
  | _, [] => true
  | [], _ :: _ => false
  | c :: cs, sub => sub.isPrefixOf (c :: cs) || containsL cs sub

/-- Model of Go `strings.HasPrefix`. -/
def hasPrefixL (s pre : Str) : Bool := pre.isPrefixOf s

/-- Model of Go `strings.HasSuffix`. -/
def hasSuffixL (s suf : Str) : Bool := suf.isSuffixOf s

/-- Worker for `strings.ReplaceAll` with non-empty pattern `oc :: orest`;
`fuel` as in `splitOnAux` (the exhaustion row is unreachable). -/
def replaceAux (oc : Char) (orest new : Str) : Nat → Str → Str
  | _, [] => []
  | 0, s => s
  | fuel + 1, c :: cs =>
    if (oc :: orest).isPrefixOf (c :: cs) then
      new ++ replaceAux oc orest new fuel (cs.drop orest.length)
    else
      c :: replaceAux oc orest new fuel cs

/-- Model of Go `strings.ReplaceAll` (all call sites use a non-empty old
pattern; the empty pattern is mapped to the identity). -/
def replaceAllL (s old new : Str) : Str :=
  match old with
  | [] => s
  | oc :: orest => replaceAux oc orest new s.length s

/-- Model of Go `strings.ToLower` (ASCII case mapping, the only range this
code base lowercases). -/
def toLowerL (s : Str) : Str := s.map Char.toLower

/-- Numeric value of a run of decimal digit characters. -/
def digitsVal (s : Str) : Nat :=
  s.foldl (fun a c => 10 * a + (c.toNat - ('0').toNat)) 0

/-- Model of `fmt.Sscanf(s, "%d", &x)`: an optional sign followed by at least
one decimal digit; scanning stops at the first non-digit. -/
def goParseInt (s : Str) : Option Int :=
  let core : Str → Option Nat := fun t =>
    let ds := t.takeWhile Char.isDigit
    if ds = [] then none else some (digitsVal ds)
  match s with
  | '-' :: t => (core t).map (fun n => -(n : Int))
  | '+' :: t => (core t).map (fun n => (n : Int))
  | _ => (core s).map (fun n => (n : Int))

/-- Model of `fmt.Sscanf(s, "%f", &x)` followed by Go `int(x)` truncation:
an optional sign, an integer part and an optional fraction; the result is the
integer part with the sign of the input (truncation toward zero). -/
def goParseFloat (s : Str) : Option Int :=
  let core : Str → Option Nat := fun t =>
    let ip := t.takeWhile Char.isDigit
    match t.drop ip.length with
    | '.' :: frac =>
      if ip = [] && frac.takeWhile Char.isDigit = [] then none
      else some (digitsVal ip)
    | _ => if ip = [] then none else some (digitsVal ip)
  match s with
  | '-' :: t => (core t).map (fun n => -(n : Int))
  | '+' :: t => (core t).map (fun n => (n : Int))
  | _ => (core s).map (fun n => (n : Int))

/-- Decimal rendering of a natural number, as `fmt.Sprintf("%d", n)`. -/
def natToStr (n : Nat) : Str := Nat.toDigits 10 n

/-- Decimal rendering of a Go `int`, as `fmt.Sprintf("%d", i)`. -/
def intToStr (i : Int) : Str :=
  if i < 0 then '-' :: natToStr i.natAbs else natToStr i.natAbs

/-- ASCII bytes of a string (used for zip entry payloads written from
string literals). -/
def asciiBytes (s : Str) : List Nat := s.map Char.toNat

/-! ## Data model (model.go) -/

/-- `SimpleMeta`: basic Dublin Core element such as a title. -/
structure SimpleMeta where
  value : Str := []
  id : Str := []
  dir : Str := []
  lang : Str := []
deriving DecidableEq, Repr

/-- `AuthorMeta`: creator/contributor (embedded `SimpleMeta` flattened). -/
structure AuthorMeta where
  value : Str := []
  id : Str := []
  dir : Str := []
  lang : Str := []
  fileAs : Str := []
  role : Str := []
  scheme : Str := []
deriving DecidableEq, Repr

/-- `IDMeta`: a `dc:identifier` element. -/
structure IDMeta where
  value : Str := []
  id : Str := []
  scheme : Str := []
deriving DecidableEq, Repr

/-- `Meta`: the generic `meta` tag carrying either the EPUB2 name/content
shape or the EPUB3 property/refines/scheme + text shape. -/
structure Meta where
  id : Str := []
  name : Str := []
  content : Str := []
  property : Str := []
  refines : Str := []
  scheme : Str := []
  value : Str := []
deriving DecidableEq, Repr

/-- `Metadata`: ordered collections of the package metadata. -/
structure Metadata where
  titles : List SimpleMeta := []
  creators : List AuthorMeta := []
  subjects : List SimpleMeta := []
  descriptions : List SimpleMeta := []
  publishers : List SimpleMeta := []
  contributors : List AuthorMeta := []
  dates : List SimpleMeta := []
  types : List SimpleMeta := []
  formats : List SimpleMeta := []
  identifiers : List IDMeta := []
  sources : List SimpleMeta := []
  languages : List SimpleMeta := []
  rights : List SimpleMeta := []
  meta : List Meta := []
deriving DecidableEq, Repr

/-- Manifest `Item`. -/
structure Item where
  id : Str := []
  href : Str := []
  mediaType : Str := []
  properties : Str := []
  fallback : Str := []
  mediaOverlay : Str := []
deriving DecidableEq, Repr

/-- `Manifest`. -/
structure Manifest where
  items : List Item := []
deriving DecidableEq, Repr

/-- Spine `ItemRef`. -/
structure ItemRef where
  idRef : Str := []
  linear : Str := []
  properties : Str := []
deriving DecidableEq, Repr

/-- `Spine`. -/
structure Spine where
  toc : Str := []
  pageProg : Str := []
  itemRefs : List ItemRef := []
deriving DecidableEq, Repr

/-- Guide `Reference`. -/
structure Reference where
  type : Str := []
  title : Str := []
  href : Str := []
deriving DecidableEq, Repr

/-- `Guide` (EPUB2-only, optional). -/
structure Guide where
  references : List Reference := []
deriving DecidableEq, Repr

/-- `Package`: the root OPF entity. -/
structure Package where
  version : Str := []
  uniqueIdentifier : Str := []
  prefixAttr : Str := []
  xmlns : Str := []
  dir : Str := []
  id : Str := []
  metadata : Metadata := {}
  manifest : Manifest := {}
  spine : Spine := {}
  guide : Option Guide := none
deriving DecidableEq, Repr

/-! ## Non-destructive writer (writer.go) -/

/-- Header and raw payload of one entry of the source archive: the Container
Index record.  `payload` is the exact compressed byte range of the entry in
the source file (what `DataOffset` + `CompressedSize64` address). -/
structure ZipEntry where
  name : Str
  isDir : Bool := false
  method : Nat := 8
  crc32 : Nat := 0
  compressedSize : Nat := 0
  uncompressedSize : Nat := 0
  payload : List Nat := []
deriving DecidableEq, Repr

/-- One write operation performed by `Save` on the output archive:
`raw e` is `w.CreateRaw(&e.header)` followed by the verbatim copy of the
compressed payload (`copyZipFile`); `fresh name method content` is
`CreateHeader`/`Create` + `Write`, i.e. freshly compressed content. -/
inductive WriteOp where
  | raw (e : ZipEntry)
  | fresh (name : Str) (method : Nat) (content : List Nat)
deriving DecidableEq, Repr

/-- `zip.Store` compression method constant. -/
def zipStore : Nat := 0

/-- `zip.Deflate` compression method constant. -/
def zipDeflate : Nat := 8

/-- The bytes `writeMimetype` writes: `[]byte("application/epub+zip")`. -/
def mimetypeBytes : List Nat := asciiBytes (str "application/epub+zip")

/-- `writeMimetype`: first entry of every output archive, stored without
compression. -/
def writeMimetype : WriteOp := .fresh (str "mimetype") zipStore mimetypeBytes

/-- The directory skip of `Save`/`copyZipFile`:
`f.FileInfo().IsDir() || strings.HasSuffix(name, "/")`. -/
def dirSkip (f : ZipEntry) : Bool := f.isDir || hasSuffixL f.name (str "/")

/-- Association-list lookup modelling a Go map read (`m[k]`), where the list
carries the final contents of the map. -/
def lookupL (m : List (Str × List Nat)) (k : Str) : Option (List Nat) :=
  match m with
  | [] => none
  | (k0, v0) :: rest => if k0 = k then some v0 else lookupL rest k

/-- Step 5 of `Save`: stream copy of the original entries in original order,
replacing the OPF and any path present in the Replacement Map, raw-copying
everything else. -/
def savePass (opfPath : Str) (reps : List (Str × List Nat))
    (opfContent : List Nat) : List ZipEntry → List WriteOp
  | [] => []
  | f :: rest =>
    if f.name = str "mimetype" then savePass opfPath reps opfContent rest
    else if dirSkip f then savePass opfPath reps opfContent rest
    else if f.name = opfPath then
      .fresh f.name f.method opfContent :: savePass opfPath reps opfContent rest
    else
      match lookupL reps f.name with
      | some content => .fresh f.name f.method content :: savePass opfPath reps opfContent rest
      | none => .raw f :: savePass opfPath reps opfContent rest

/-- The names recorded in `writtenFiles` after step 5 ("mimetype" plus every
non-mimetype, non-directory original entry name). -/
def writtenNames (files : List ZipEntry) : List Str :=
  str "mimetype" ::
    (files.filter (fun f => !(f.name = str "mimetype") && !dirSkip f)).map (·.name)

/-- Lookup in the `originalFiles` map built by `Save` (a Go map written in
file order, so the last entry with a given name wins). -/
def lookupOriginal (files : List ZipEntry) (k : Str) : Option ZipEntry :=
  match files with
  | [] => none
  | f :: rest =>
    match lookupOriginal rest k with
    | some g => some g
    | none => if f.name = k then some f else none

/-- Step 6 of `Save`: Replacement-Map paths absent from the main pass are
appended after it (the Go map iteration order is not specified; the model
fixes the iteration order of the Replacement Map to its list order). -/
def saveNewReplacements (files : List ZipEntry) (reps : List (Str × List Nat)) :
    List WriteOp :=
  (reps.filter (fun pc => !(writtenNames files).contains pc.1)).map
    (fun pc =>
      let method := match lookupOriginal files pc.1 with
        | some orig => orig.method
        | none => zipDeflate
      .fresh pc.1 method pc.2)

/-- `Save` (writer.go): the ordered list of write operations emitted into the
output archive, given the original Container Index `files`, the discovered
package-document path, the Replacement Map and the freshly serialized OPF
bytes. -/
def saveEntries (files : List ZipEntry) (opfPath : Str)
    (reps : List (Str × List Nat)) (opfContent : List Nat) : List WriteOp :=
  writeMimetype :: (savePass opfPath reps opfContent files ++ saveNewReplacements files reps)

/-- The raw-copied entries of an output, in order. -/
def rawOps (ops : List WriteOp) : List ZipEntry :=
  ops.filterMap (fun op => match op with | .raw e => some e | .fresh _ _ _ => none)

/-- Spec-side characterization of the entries `Save` must copy verbatim:
not the mimetype, not a directory entry, not the package document, not a
Replacement-Map key. -/
def keptVerbatim (opfPath : Str) (reps : List (Str × List Nat)) (f : ZipEntry) : Bool :=
  !decide (f.name = str "mimetype") && !dirSkip f && !decide (f.name = opfPath)
    && (lookupL reps f.name).isNone

/-- A directory entry used as a counterexample input. -/
def dirEntryCE : ZipEntry := { name := str "OEBPS/", isDir := true }

/-! ## Metadata reconciliation (metadata.go) -/

/-- `isEPUB3`: the declared version, trimmed, starts with "3". -/
def isEPUB3 (pkg : Package) : Bool :=
  hasPrefixL (trimSpaceL pkg.version) (str "3")

/-- `GetTitle`. -/
def GetTitle (pkg : Package) : Str :=
  match pkg.metadata.titles with
  | t :: _ => t.value
  | [] => []

/-- `GetAuthor`. -/
def GetAuthor (pkg : Package) : Str :=
  match pkg.metadata.creators with
  | c :: _ => c.value
  | [] => []

/-- `GetDescription`. -/
def GetDescription (pkg : Package) : Str :=
  match pkg.metadata.descriptions with
  | d :: _ => d.value
  | [] => []

/-- `GetLanguage`: first language value if non-empty, else "und". -/
def GetLanguage (pkg : Package) : Str :=
  match pkg.metadata.languages with
  | l :: _ => if l.value ≠ [] then l.value else str "und"
  | [] => str "und"

/-- `GetPublisher`. -/
def GetPublisher (pkg : Package) : Str :=
  match pkg.metadata.publishers with
  | p :: _ => p.value
  | [] => []

/-- `GetPublishDate`. -/
def GetPublishDate (pkg : Package) : Str :=
  match pkg.metadata.dates with
  | d :: _ => d.value
  | [] => []

/-- Spec-side description of a simple first-element read accessor: the first
element's value, or the empty string on an empty collection. -/
def firstValueOrEmpty (xs : List SimpleMeta) : Str :=
  match xs with
  | x :: _ => x.value
  | [] => []

/-- Spec-side first-element accessor for creator collections. -/
def firstAuthorValueOrEmpty (xs : List AuthorMeta) : Str :=
  match xs with
  | x :: _ => x.value
  | [] => []

/-! ## Rating (metadata.go: GetRating, GetRatingRaw, SetRating) -/

/-- One iteration of the `GetRating` loop: the rating decoded from one Meta
entry, if the iteration returns.  The property shape is checked first and
needs a non-blank value; either shape parses the stored text with `%d`, then
with `%f` plus `int` truncation; on failure the loop continues. -/
def ratingOfMeta (m : Meta) : Option Int :=
  let nameBranch : Option Int :=
    if m.name = str "calibre:rating" then
      match goParseInt m.content with
      | some r => some (Int.tdiv r 2)
      | none =>
        match goParseFloat m.content with
        | some f => some (Int.tdiv f 2)
        | none => none
    else none
  if m.property = str "calibre:rating" ∧ trimSpaceL m.value ≠ [] then
    match goParseInt m.value with
    | some r => some (Int.tdiv r 2)
    | none =>
      match goParseFloat m.value with
      | some f => some (Int.tdiv f 2)
      | none => nameBranch
  else nameBranch

/-- The `GetRating` loop over the Meta list (default 0). -/
def getRatingLoop : List Meta → Int
  | [] => 0
  | m :: rest =>
    match ratingOfMeta m with
    | some r => r
    | none => getRatingLoop rest

/-- `GetRating`: the stored 0-10 rating scaled down to 0-5. -/
def GetRating (pkg : Package) : Int := getRatingLoop pkg.metadata.meta

/-- One iteration of the `GetRatingRaw` loop. -/
def rawRatingOfMeta (m : Meta) : Option Str :=
  if m.property = str "calibre:rating" ∧ trimSpaceL m.value ≠ [] then some m.value
  else if m.name = str "calibre:rating" then some m.content
  else none

/-- The `GetRatingRaw` loop over the Meta list (default ""). -/
def getRatingRawLoop : List Meta → Str
  | [] => []
  | m :: rest =>
    match rawRatingOfMeta m with
    | some v => v
    | none => getRatingRawLoop rest

/-- `GetRatingRaw`: the raw stored rating text. -/
def GetRatingRaw (pkg : Package) : Str := getRatingRawLoop pkg.metadata.meta

/-- The loop body of `SetRating`: both the name/content and the
property/value shapes of a matching entry are updated in place. -/
def setRatingEntry (v : Str) (m : Meta) : Meta :=
  let m := if m.name = str "calibre:rating" then { m with content := v } else m
  if m.property = str "calibre:rating" then { m with value := v } else m

/-- Whether one Meta entry sets the `found` flag of `SetRating`. -/
def ratingEntryMatches (m : Meta) : Bool :=
  decide (m.name = str "calibre:rating") || decide (m.property = str "calibre:rating")

/-- `SetRating`: clamps to [0,5], stores the doubled value in every existing
calibre:rating entry (either shape), appending a version-appropriate entry
when none exists. -/
def SetRating (pkg : Package) (rating : Int) : Package :=
  let rating := if rating < 0 then 0 else rating
  let rating := if rating > 5 then 5 else rating
  let calibreRating := intToStr (rating * 2)
  let updated := pkg.metadata.meta.map (setRatingEntry calibreRating)
  let found := pkg.metadata.meta.any ratingEntryMatches
  let newMeta :=
    if found then updated
    else if isEPUB3 pkg then
      updated ++ [{ property := str "calibre:rating", value := calibreRating }]
    else
      updated ++ [{ name := str "calibre:rating", content := calibreRating }]
  { pkg with metadata := { pkg.metadata with meta := newMeta } }

/-- Spec-side clamp of the public 0-5 rating scale. -/
def goClamp (r : Int) : Int :=
  let r := if r < 0 then 0 else r
  if r > 5 then 5 else r

/-! ## Author splitting (metadata.go: parseAuthorString, GetAuthors) -/

/-- The safe delimiter list of `parseAuthorString`, in source order. -/
def safeDelimiters : List Str :=
  [str " & ", str "&", str "、", str " and ", str " AND ", str "；", str ";"]

/-- The safe-delimiter loop of `parseAuthorString`: the first delimiter that
occurs in `s` and yields more than one trimmed non-empty part wins. -/
def trySafeDelims : List Str → Str → Option (List Str)
  | [], _ => none
  | delim :: rest, s =>
    if containsL s delim then
      let result := ((splitOnL delim s).map trimSpaceL).filter (fun p => p != [])
      if result.length > 1 then some result else trySafeDelims rest s
    else trySafeDelims rest s

/-- The comma-handling tail of `parseAuthorString`. -/
def commaFallback (s : Str) : List Str :=
  if containsL s (str ",") || containsL s (str "，") then
    let normalized := replaceAllL s (str "，") (str ",")
    let parts := splitOnL (str ",") normalized
    if parts.length ≥ 2 then
      match parts with
      | p0 :: p1 :: _ =>
        let firstPart := trimSpaceL p0
        let secondPart := trimSpaceL p1
        let isMultipleAuthors := decide (parts.length > 2) || containsL firstPart (str " ")
          || (decide (parts.length = 2) && containsL secondPart (str " ")
              && !containsL firstPart (str " "))
        if isMultipleAuthors && decide (parts.length > 2) then
          (parts.map trimSpaceL).filter (fun p => p != [])
        else [s]
      | _ => [s]
    else [s]
  else [s]

/-- `parseAuthorString`. -/
def parseAuthorString (s : Str) : List Str :=
  let s := trimSpaceL s
  if s = [] then []
  else
    match trySafeDelims safeDelimiters s with
    | some result => result
    | none => commaFallback s

/-- Worker of `deduplicateStrings` (the `seen` set is a list standing for the
Go map). -/
def dedupAux (seen : List Str) : List Str → List Str
  | [] => []
  | x :: rest => if x ∈ seen then dedupAux seen rest else x :: dedupAux (x :: seen) rest

/-- `deduplicateStrings`: removes duplicates preserving first-seen order. -/
def deduplicateStrings (items : List Str) : List Str := dedupAux [] items

/-- `GetAuthors`: every creator value parsed and the results deduplicated. -/
def GetAuthors (pkg : Package) : List Str :=
  deduplicateStrings ((pkg.metadata.creators.map (fun c => parseAuthorString c.value)).flatten)

/-- Spec-side definition, written from the spec's words "deduplicated
preserving first-seen order": keep each string's first occurrence, in order
of first appearance (the head is its own first occurrence; every later copy
of it is removed from the deduplicated tail). -/
def specFirstSeenDedup : List Str → List Str
  | [] => []
  | x :: rest => x :: (specFirstSeenDedup rest).filter (fun y => decide (y ≠ x))

/-! ## Identifiers (metadata.go: parseIdentifier, GetIdentifiers, SetISBN) -/

/-- `normalizeScheme`: lowercases, trims, and maps the common variations of
the source switch to standard forms. -/
def normalizeScheme (scheme : Str) : Str :=
  let scheme := toLowerL (trimSpaceL scheme)
  if scheme = str "isbn" ∨ scheme = str "urn:isbn" then str "isbn"
  else if scheme = str "asin" then str "asin"
  else if scheme = str "mobi-asin" then str "mobi-asin"
  else if scheme = str "uuid" ∨ scheme = str "urn:uuid" then str "uuid"
  else if scheme = str "calibre" then str "calibre"
  else if scheme = str "douban" ∨ scheme = str "new_douban" then scheme
  else if scheme = str "amazon_cn" ∨ scheme = str "google" ∨ scheme = str "doi" then scheme
  else scheme

/-- `isISBN`: after separator stripping, 10 digits with an optional check
character, or 13 digits starting with 978/979. -/
def isISBN (s : Str) : Bool :=
  let s := replaceAllL s (str "-") []
  let s := replaceAllL s (str " ") []
  if s.length = 10 then
    (s.take 9).all Char.isDigit &&
      (match s.getLast? with
       | some c => c.isDigit || c = 'X' || c = 'x'
       | none => false)
  else if s.length = 13 then
    (hasPrefixL s (str "978") || hasPrefixL s (str "979")) && s.all Char.isDigit
  else false

/-- Model of Go `strings.TrimPrefix` (case-sensitive). -/
def trimPrefixL (s pre : Str) : Str :=
  if hasPrefixL s pre then s.drop pre.length else s

/-- `parseIdentifier`: extracts (scheme, value) from the explicit scheme
attribute, the `urn:scheme:value` embedding, the `scheme:value` embedding,
or the bare-ISBN heuristic; the source's non-returning branches fall
through in the same order. -/
def parseIdentifier (scheme value : Str) : Str × Str :=
  let stepUuid : Str × Str :=
    if hasPrefixL (toLowerL value) (str "uuid:") then
      (str "uuid", trimPrefixL value (str "uuid:"))
    else if isISBN value then (str "isbn", value)
    else (str "unknown", value)
  let stepColon : Str × Str :=
    if containsL value (str ":") ∧ ¬ hasPrefixL (toLowerL value) (str "uuid:") = true then
      let parts := splitNL (str ":") 2 value
      if parts.length = 2 then
        let extractedScheme := normalizeScheme (parts.getD 0 [])
        let extractedValue := parts.getD 1 []
        if extractedScheme = str "uuid" then (str "uuid", extractedValue)
        else if extractedScheme ≠ [] ∧ extractedScheme ≠ str "unknown" then
          (extractedScheme, extractedValue)
        else stepUuid
      else stepUuid
    else stepUuid
  if scheme ≠ [] ∧ scheme ≠ str "unknown" then (normalizeScheme scheme, value)
  else if hasPrefixL (toLowerL value) (str "urn:") then
    let parts := splitNL (str ":") 3 value
    if parts.length ≥ 3 then
      let extractedScheme := normalizeScheme (parts.getD 1 [])
      let extractedValue := parts.getD 2 []
      if extractedScheme = str "uuid" then (str "uuid", extractedValue)
      else (extractedScheme, extractedValue)
    else if parts.length = 2 ∧ normalizeScheme (parts.getD 1 []) = str "uuid" then
      (str "uuid", value)
    else stepColon
  else stepColon

/-- Association-list write modelling a Go map insert `m[k] = v` (replace the
live entry or append). -/
def mapUpsert (m : List (Str × Str)) (k v : Str) : List (Str × Str) :=
  match m with
  | [] => [(k, v)]
  | (k0, v0) :: rest => if k0 = k then (k, v) :: rest else (k0, v0) :: mapUpsert rest k v

/-- Association-list read modelling a Go map lookup. -/
def mapGet (m : List (Str × Str)) (k : Str) : Option Str :=
  match m with
  | [] => none
  | (k0, v0) :: rest => if k0 = k then some v0 else mapGet rest k

/-- The `GetIdentifiers` loop: public schemes only, later entries
overwriting earlier ones with the same scheme. -/
def buildIdentifiers : List (Str × Str) → List IDMeta → List (Str × Str)
  | m, [] => m
  | m, idm :: rest =>
    let sv := parseIdentifier idm.scheme idm.value
    if sv.1 ≠ [] ∧ sv.1 ≠ str "uuid" ∧ sv.1 ≠ str "unknown" then
      buildIdentifiers (mapUpsert m sv.1 sv.2) rest
    else buildIdentifiers m rest

/-- `GetIdentifiers` (the Go map is observed through `mapGet`). -/
def GetIdentifiers (pkg : Package) : List (Str × Str) :=
  buildIdentifiers [] pkg.metadata.identifiers

/-- Spec-side: the parsed values of the identifiers of `ids` classifying to
scheme `k`, in document order. -/
def matchValues (k : Str) (ids : List IDMeta) : List Str :=
  ids.filterMap (fun idm =>
    let sv := parseIdentifier idm.scheme idm.value
    if sv.1 = k then some sv.2 else none)

/-- Spec-side: the parsed values of the package identifiers classifying to
scheme `k`, in document order. -/
def identifierMatches (pkg : Package) (k : Str) : List Str :=
  matchValues k pkg.metadata.identifiers

/-! ## SetISBN (metadata.go) -/

/-- The digit-like test of `replaceDigitsPreserveSeparators`
(0-9, X, x). -/
def isbnDigitLike (r : Char) : Bool := r.isDigit || r = 'X' || r = 'x'

/-- Substitution pass of `replaceDigitsPreserveSeparators`: digit-like
template positions receive the next digit, separators are kept. -/
def replaceDigitsAux : Str → Str → Str
  | [], _ => []
  | r :: rs, ds =>
    if isbnDigitLike r then ds.headD r :: replaceDigitsAux rs ds.tail
    else r :: replaceDigitsAux rs ds

/-- `replaceDigitsPreserveSeparators`: digit-for-digit substitution keeping
the template's separator pattern, when the digit counts match. -/
def replaceDigitsPreserveSeparators (template digits : Str) : Option Str :=
  let count := (template.filter isbnDigitLike).length
  if count ≠ digits.length then none
  else some (replaceDigitsAux template digits)

/-- Whether one identifier classifies as ISBN for the `SetISBN` loop. -/
def isbnLike (idm : IDMeta) : Bool :=
  decide ((parseIdentifier idm.scheme idm.value).1 = str "isbn")

/-- The cleaned new ISBN of `SetISBN` (trim, then strip "-" and " "). -/
def cleanISBN (isbn : Str) : Str :=
  replaceAllL (replaceAllL (trimSpaceL isbn) (str "-") []) (str " ") []

/-- Whether the trimmed `SetISBN` input still carries separators. -/
def isbnInputHasSep (isbn : Str) : Bool :=
  containsL (trimSpaceL isbn) (str "-") || containsL (trimSpaceL isbn) (str " ")

/-- The loop body of `SetISBN` applied to one ISBN-classified identifier
(the three value-shape cases, each split by the declared version). -/
def setISBNRewrite (ep3 : Bool) (trimmed clean : Str) (inputHasSep : Bool)
    (idm : IDMeta) : IDMeta :=
  let raw := trimSpaceL idm.value
  let lower := toLowerL raw
  if hasPrefixL lower (str "urn:isbn:") then
    { idm with scheme := [], value := str "urn:isbn:" ++ clean }
  else if hasPrefixL lower (str "isbn:") then
    if ep3 then { idm with scheme := [], value := str "urn:isbn:" ++ clean }
    else
      { idm with
          scheme := str "ISBN"
          value := if inputHasSep then trimmed else clean }
  else
    if ep3 then { idm with scheme := [], value := str "urn:isbn:" ++ clean }
    else
      { idm with
          scheme := str "ISBN"
          value :=
            if inputHasSep then trimmed
            else if containsL raw (str "-") || containsL raw (str " ") then
              match replaceDigitsPreserveSeparators raw clean with
              | some replaced => replaced
              | none => clean
            else clean }

/-- `SetISBN`: every ISBN-classified identifier is rewritten in place (the
source loop has no break); when none exists a version-appropriate identifier
is appended. -/
def SetISBN (pkg : Package) (isbn : Str) : Package :=
  let trimmed := trimSpaceL isbn
  let clean := cleanISBN isbn
  let inputHasSep := isbnInputHasSep isbn
  let updated := pkg.metadata.identifiers.map (fun idm =>
    if isbnLike idm then setISBNRewrite (isEPUB3 pkg) trimmed clean inputHasSep idm
    else idm)
  if pkg.metadata.identifiers.any isbnLike then
    { pkg with metadata := { pkg.metadata with identifiers := updated } }
  else if isEPUB3 pkg then
    { pkg with metadata := { pkg.metadata with identifiers :=
        pkg.metadata.identifiers ++ [{ value := str "urn:isbn:" ++ clean }] } }
  else if inputHasSep then
    { pkg with metadata := { pkg.metadata with identifiers :=
        pkg.metadata.identifiers ++ [{ scheme := str "ISBN", value := trimmed }] } }
  else
    { pkg with metadata := { pkg.metadata with identifiers :=
        pkg.metadata.identifiers ++ [{ scheme := str "ISBN", value := clean }] } }

/-- An EPUB2 package with two ISBN identifiers, used as a counterexample
input. -/
def c3pkg : Package :=
  { version := str "2.0",
    metadata := { identifiers :=
      [{ scheme := str "ISBN", value := str "9780306406157" },
       { scheme := str "ISBN", value := str "9780000000000" }] } }

/-! ## Series (metadata.go: GetSeries, GetSeriesIndex, SetSeries, SetSeriesIndex) -/

/-- Whether some Meta entry refines `#id` with collection-type series. -/
def refinesSeriesType (metas : List Meta) (id : Str) : Bool :=
  metas.any (fun refine =>
    decide (refine.refines = str "#" ++ id) &&
    decide (refine.property = str "collection-type") &&
    decide (trimSpaceL refine.value = str "series"))

/-- The EPUB3 scan of `GetSeries`: the first belongs-to-collection entry
with non-empty value and id that is refined as a series collection. -/
def getSeriesE3 (all : List Meta) : List Meta → Option Str
  | [] => none
  | m :: rest =>
    if m.property = str "belongs-to-collection" ∧ m.value ≠ [] ∧ m.id ≠ [] then
      if refinesSeriesType all m.id then some m.value else getSeriesE3 all rest
    else getSeriesE3 all rest

/-- The legacy scan shared by the series accessors: first entry with the
given name, returning its content. -/
def legacyLookup (name : Str) : List Meta → Option Str
  | [] => none
  | m :: rest => if m.name = name then some m.content else legacyLookup name rest

/-- `GetSeries`. -/
def GetSeries (pkg : Package) : Str :=
  match getSeriesE3 pkg.metadata.meta pkg.metadata.meta with
  | some v => v
  | none =>
    match legacyLookup (str "calibre:series") pkg.metadata.meta with
    | some c => c
    | none => []

/-- The first group-position entry refining `#id`. -/
def findGroupPosition (id : Str) : List Meta → Option Str
  | [] => none
  | gp :: rest =>
    if gp.refines = str "#" ++ id ∧ gp.property = str "group-position" then some gp.value
    else findGroupPosition id rest

/-- The EPUB3 scan of `GetSeriesIndex` (no non-empty-value requirement on
the collection entry; continues with the next entry when the collection has
no group-position). -/
def getSeriesIndexE3 (all : List Meta) : List Meta → Option Str
  | [] => none
  | m :: rest =>
    if m.property = str "belongs-to-collection" ∧ m.id ≠ [] then
      if refinesSeriesType all m.id then
        match findGroupPosition m.id all with
        | some v => some v
        | none => getSeriesIndexE3 all rest
      else getSeriesIndexE3 all rest
    else getSeriesIndexE3 all rest

/-- `GetSeriesIndex`. -/
def GetSeriesIndex (pkg : Package) : Str :=
  match getSeriesIndexE3 pkg.metadata.meta pkg.metadata.meta with
  | some v => v
  | none =>
    match legacyLookup (str "calibre:series_index") pkg.metadata.meta with
    | some c => c
    | none => []

/-- The collection-id search shared by `SetSeries` and `SetSeriesIndex`:
the first belongs-to-collection id refined as a series collection. -/
def findCollectionID (metas : List Meta) : List Meta → Option Str
  | [] => none
  | m :: rest =>
    if m.property = str "belongs-to-collection" ∧ m.id ≠ [] then
      if refinesSeriesType metas m.id then some m.id else findCollectionID metas rest
    else findCollectionID metas rest

/-- `fmt.Sprintf("c%02d", i)` for the id counter. -/
def sprintfC02d (i : Nat) : Str :=
  str "c" ++ (if i < 10 then '0' :: natToStr i else natToStr i)

/-- The id-allocation loop of `SetSeries`: the first free candidate.  The
bound makes the search total; it is never reached because among
`used.length + 1` distinct candidates one must be free. -/
def freshIDSearch (used : List Str) : Nat → Nat → Str
  | 0, i => sprintfC02d i
  | bound + 1, i =>
    if sprintfC02d i ∈ used then freshIDSearch used bound (i + 1) else sprintfC02d i

/-- The fresh collection id `c01, c02, ...` avoiding existing ids. -/
def freshCollectionID (metas : List Meta) : Str :=
  let used := ((metas.filter (fun m => m.id != [])).map (fun m => m.id))
  freshIDSearch used (used.length + 1) 1

/-- Update of the first element satisfying `p` (the loops with break),
returning the updated list and whether a match was found. -/
def updateFirstBy (p : Meta → Bool) (f : Meta → Meta) : List Meta → List Meta × Bool
  | [] => ([], false)
  | m :: rest =>
    if p m then (f m :: rest, true)
    else
      let r := updateFirstBy p f rest
      (m :: r.1, r.2)

/-- The legacy-sync pass of the EPUB3 branches: update every
name/content entry with the given name (never create one). -/
def updLegacyAll (name newContent : Str) (metas : List Meta) : List Meta :=
  metas.map (fun m => if m.name = name then { m with content := newContent } else m)

/-- `SetSeries`. -/
def SetSeries (pkg : Package) (series : Str) : Package :=
  if isEPUB3 pkg then
    let metas := pkg.metadata.meta
    let metas :=
      match findCollectionID metas metas with
      | none =>
        let collectionID := freshCollectionID metas
        metas ++
          [{ id := collectionID, property := str "belongs-to-collection", value := series },
           { refines := str "#" ++ collectionID, property := str "collection-type",
             value := str "series" }]
      | some collectionID =>
        let metas := (updateFirstBy
          (fun m => decide (m.property = str "belongs-to-collection") &&
            decide (m.id = collectionID))
          (fun m => { m with value := series }) metas).1
        let r := updateFirstBy
          (fun m => decide (m.refines = str "#" ++ collectionID) &&
            decide (m.property = str "collection-type"))
          (fun m => { m with value := str "series" }) metas
        if r.2 then r.1
        else r.1 ++ [{ refines := str "#" ++ collectionID,
                       property := str "collection-type", value := str "series" }]
    { pkg with metadata := { pkg.metadata with
        meta := updLegacyAll (str "calibre:series") series metas } }
  else
    let updated := pkg.metadata.meta.map (fun m =>
      if m.name = str "calibre:series" then { m with content := series } else m)
    let found := pkg.metadata.meta.any (fun m => decide (m.name = str "calibre:series"))
    let metas := if found then updated
      else updated ++ [{ name := str "calibre:series", content := series }]
    { pkg with metadata := { pkg.metadata with meta := metas } }

/-- `SetSeriesIndex`.  In the EPUB3 branch, when no series collection can be
established the source's fallback block is empty, so nothing is written
besides the legacy sync of existing calibre:series_index tags. -/
def SetSeriesIndex (pkg : Package) (index : Str) : Package :=
  if isEPUB3 pkg then
    let pkg := if GetSeries pkg = [] then SetSeries pkg [] else pkg
    let metas := pkg.metadata.meta
    let metas :=
      match findCollectionID metas metas with
      | none => metas
      | some collectionID =>
        let r := updateFirstBy
          (fun m => decide (m.refines = str "#" ++ collectionID) &&
            decide (m.property = str "group-position"))
          (fun m => { m with value := index }) metas
        if r.2 then r.1
        else r.1 ++ [{ refines := str "#" ++ collectionID,
                       property := str "group-position", value := index }]
    { pkg with metadata := { pkg.metadata with
        meta := updLegacyAll (str "calibre:series_index") index metas } }
  else
    let updated := pkg.metadata.meta.map (fun m =>
      if m.name = str "calibre:series_index" then { m with content := index } else m)
    let found := pkg.metadata.meta.any (fun m =>
      decide (m.name = str "calibre:series_index"))
    let metas := if found then updated
      else updated ++ [{ name := str "calibre:series_index", content := index }]
    { pkg with metadata := { pkg.metadata with meta := metas } }

/-- The EPUB3 package carrying only the legacy series tag, from the
scenario of the claim (and of TestSetSeriesIndexEPUB3_LegacyOnlyFallback). -/
def c4pkg : Package :=
  { version := str "3.0",
    metadata :=
      { titles := [{ value := str "EPUB3 Legacy Series Book" }],
        languages := [{ value := str "en" }],
        meta := [{ name := str "calibre:series", content := str "Legacy Series Name" }] } }

/-! ## Latin-1 streaming expander (reader.go: latin1Reader.Read) -/

/-- The per-byte expansion of the `latin1Reader` loop body: bytes below 0x80
pass through, higher bytes become their two-byte UTF-8 encoding. -/
def expandByte (b : Nat) : List Nat :=
  if b < 0x80 then [b] else [0xC0 ||| (b >>> 6), 0x80 ||| (b &&& 0x3F)]

/-- The mutable state of a `latin1Reader` run: the pending expanded bytes
not yet delivered, and the remaining source, as the list of chunks the
underlying reader will hand out (a chunk larger than a request is served
across several requests, front first). -/
structure L1State where
  pending : List Nat
  chunks : List (List Nat)
deriving DecidableEq, Repr

/-- One call of `latin1Reader.Read` with buffer size `np`: pending bytes are
served first without touching the source; otherwise up to
`min np 4096` source bytes are read, expanded, delivered up to `np`, and the
overflow is parked in `pending`. -/
def latin1Read (st : L1State) (np : Nat) : List Nat × L1State :=
  if np = 0 then ([], st)
  else if st.pending ≠ [] then
    (st.pending.take np, ⟨st.pending.drop np, st.chunks⟩)
  else
    match st.chunks with
    | [] => ([], st)
    | c :: cs =>
      let toRead := min np 4096
      let taken := c.take toRead
      let rest := c.drop toRead
      let expanded := taken.flatMap expandByte
      (expanded.take np, ⟨expanded.drop np, if rest = [] then cs else rest :: cs⟩)

/-- Everything a state still owes the caller: pending bytes, then the
expansion of the unread source. -/
def l1Rem (st : L1State) : List Nat :=
  st.pending ++ (st.chunks.flatten).flatMap expandByte

/-- Termination measure of a run. -/
def chunksMeasure (chunks : List (List Nat)) : Nat :=
  chunks.foldr (fun c a => 2 * c.length + 1 + a) 0

/-- Termination measure of a run. -/
def l1Measure (st : L1State) : Nat := st.pending.length + chunksMeasure st.chunks

/-- The caller loop worker: keep invoking `Read` with the positive buffer
sizes `sizes i + 1` until the source is exhausted and the pending queue is
drained, concatenating the returned byte slices.  `fuel` bounds the number
of calls and is initialized to the run measure, which suffices because each
call strictly decreases it (latin1Read_measure); the exhaustion row is
unreachable and present only to keep the recursion structural. -/
def l1DrainFuel (sizes : Nat → Nat) : Nat → Nat → L1State → List Nat
  | 0, _, _ => []
  | fuel + 1, i, st =>
    if st.pending = [] ∧ st.chunks = [] then []
    else
      (latin1Read st (sizes i + 1)).1 ++
        l1DrainFuel sizes fuel (i + 1) (latin1Read st (sizes i + 1)).2

/-- The whole caller loop from an initial state. -/
def l1Drain (sizes : Nat → Nat) (i : Nat) (st : L1State) : List Nat :=
  l1DrainFuel sizes (l1Measure st) i st

/-- Spec-side per-byte mapping, written arithmetically from the spec text:
bytes below 0x80 pass through, byte b at or above 0x80 becomes the two
bytes 0xC0+(b div 64) and 0x80+(b mod 64). -/
def specLatin1Expansion (src : List Nat) : List Nat :=
  src.flatMap (fun b => if b < 128 then [b] else [192 + b / 64, 128 + b % 64])

/-! ## Package-document serialization (writer.go step 4, opf_writer.go)

The two serializers are modelled at the XML-structure level: an element with
its tag as written in the output, its attribute list in emission order (with
`xmlns...` declarations as ordinary attributes), and its text.  Character
escaping and indentation are not modelled. -/

/-- The Dublin Core namespace URL. -/
def NsDC : Str := str "http://purl.org/dc/elements/1.1/"

/-- The OPF package namespace URL. -/
def NsOPF : Str := str "http://www.idpf.org/2007/opf"

/-- One emitted leaf element: output tag, attributes in order, text. -/
structure XmlLeaf where
  tag : Str
  attrs : List (Str × Str) := []
  text : Str := []
deriving DecidableEq, Repr

/-- The structural skeleton of an emitted package document. -/
structure OpfDoc where
  rootAttrs : List (Str × Str)
  metadataAttrs : List (Str × Str)
  metadataChildren : List XmlLeaf
  manifestChildren : List XmlLeaf
  spineAttrs : List (Str × Str)
  spineChildren : List XmlLeaf
  guidePresent : Bool
  guideChildren : List XmlLeaf
deriving DecidableEq, Repr

/-- A conditionally emitted attribute (the `if field != ""` pattern of both
serializers, and the `omitempty` struct tags). -/
def optAttr (k v : Str) : List (Str × Str) :=
  if v ≠ [] then [(k, v)] else []

/-- The meta leaf of `marshalOPFWithEtree` (property shape first, then
name/content shape, else an empty element). -/
def etreeMetaLeaf (m : Meta) : XmlLeaf :=
  if m.property ≠ [] then
    { tag := str "meta"
      attrs := [(str "property", m.property)] ++ optAttr (str "refines") m.refines ++
        optAttr (str "scheme") m.scheme ++ optAttr (str "id") m.id
      text := m.value }
  else if m.name ≠ [] then
    { tag := str "meta", attrs := [(str "name", m.name), (str "content", m.content)] }
  else { tag := str "meta" }

/-- `marshalOPFWithEtree` (opf_writer.go): direct emission with the dc: and
opf: prefixes declared explicitly on the metadata element. -/
def marshalOPFWithEtree (pkg : Package) : OpfDoc :=
  { rootAttrs := [(str "xmlns", NsOPF), (str "version", pkg.version),
      (str "unique-identifier", pkg.uniqueIdentifier)] ++
      optAttr (str "prefix") pkg.prefixAttr ++ optAttr (str "dir") pkg.dir ++
      optAttr (str "id") pkg.id
    metadataAttrs := [(str "xmlns:dc", NsDC), (str "xmlns:opf", NsOPF)]
    metadataChildren :=
      pkg.metadata.titles.map (fun t =>
        { tag := str "dc:title"
          attrs := optAttr (str "id") t.id ++ optAttr (str "xml:lang") t.lang ++
            optAttr (str "dir") t.dir
          text := t.value }) ++
      pkg.metadata.creators.map (fun c =>
        { tag := str "dc:creator"
          attrs := optAttr (str "id") c.id ++ optAttr (str "opf:file-as") c.fileAs ++
            optAttr (str "opf:role") c.role
          text := c.value }) ++
      pkg.metadata.identifiers.map (fun idm =>
        { tag := str "dc:identifier"
          attrs := optAttr (str "id") idm.id ++ optAttr (str "opf:scheme") idm.scheme
          text := idm.value }) ++
      pkg.metadata.languages.map (fun l =>
        { tag := str "dc:language", attrs := optAttr (str "id") l.id, text := l.value }) ++
      pkg.metadata.publishers.map (fun p =>
        { tag := str "dc:publisher", text := p.value }) ++
      pkg.metadata.dates.map (fun d => { tag := str "dc:date", text := d.value }) ++
      pkg.metadata.descriptions.map (fun d =>
        { tag := str "dc:description", text := d.value }) ++
      pkg.metadata.subjects.map (fun sj => { tag := str "dc:subject", text := sj.value }) ++
      pkg.metadata.contributors.map (fun c =>
        { tag := str "dc:contributor"
          attrs := optAttr (str "id") c.id ++ optAttr (str "opf:file-as") c.fileAs ++
            optAttr (str "opf:role") c.role
          text := c.value }) ++
      pkg.metadata.types.map (fun t => { tag := str "dc:type", text := t.value }) ++
      pkg.metadata.formats.map (fun f => { tag := str "dc:format", text := f.value }) ++
      pkg.metadata.sources.map (fun sc => { tag := str "dc:source", text := sc.value }) ++
      pkg.metadata.rights.map (fun r => { tag := str "dc:rights", text := r.value }) ++
      pkg.metadata.meta.map etreeMetaLeaf
    manifestChildren := pkg.manifest.items.map (fun it =>
      { tag := str "item"
        attrs := [(str "id", it.id), (str "href", it.href),
            (str "media-type", it.mediaType)] ++
          optAttr (str "properties") it.properties ++
          optAttr (str "fallback") it.fallback ++
          optAttr (str "media-overlay") it.mediaOverlay })
    spineAttrs := optAttr (str "toc") pkg.spine.toc ++
      optAttr (str "page-progression-direction") pkg.spine.pageProg
    spineChildren := pkg.spine.itemRefs.map (fun ir =>
      { tag := str "itemref"
        attrs := [(str "idref", ir.idRef)] ++ optAttr (str "linear") ir.linear ++
          optAttr (str "properties") ir.properties })
    guidePresent :=
      match pkg.guide with
      | some g => decide (g.references ≠ [])
      | none => false
    guideChildren :=
      match pkg.guide with
      | some g =>
        if g.references ≠ [] then
          g.references.map (fun ref =>
            { tag := str "reference"
              attrs := [(str "type", ref.type)] ++ optAttr (str "title") ref.title ++
                [(str "href", ref.href)] })
        else []
      | none => [] }

/-- The `xmlns:opf` declaration the Go marshaller adds before the first
attribute in the opf namespace of an element. -/
def encOpfDecl (opfAttrs : List (Str × Str)) : List (Str × Str) :=
  if opfAttrs ≠ [] then [(str "xmlns:opf", NsOPF)] else []

/-- A Dublin Core element as `encoding/xml` marshals the tagged structs of
model.go.  Modelled from the marshaller's documented namespace handling:
element names are emitted unprefixed with a default `xmlns` declaration, the
built-in `xml` prefix serves the XML namespace, and a URL-derived prefix
(here `opf`) is declared for namespaced attributes; no `dc:` prefix is ever
produced. -/
def encSimpleLeaf (tag : Str) (x : SimpleMeta) : XmlLeaf :=
  { tag := tag
    attrs := [(str "xmlns", NsDC)] ++ optAttr (str "id") x.id ++
      optAttr (str "dir") x.dir ++ optAttr (str "xml:lang") x.lang
    text := x.value }

/-- A creator/contributor element as `encoding/xml` marshals `AuthorMeta`. -/
def encAuthorLeaf (tag : Str) (x : AuthorMeta) : XmlLeaf :=
  { tag := tag
    attrs :=
      [(str "xmlns", NsDC)] ++ optAttr (str "id") x.id ++ optAttr (str "dir") x.dir ++
        optAttr (str "xml:lang") x.lang ++
        encOpfDecl (optAttr (str "opf:file-as") x.fileAs ++
          optAttr (str "opf:role") x.role ++ optAttr (str "opf:scheme") x.scheme) ++
        optAttr (str "opf:file-as") x.fileAs ++ optAttr (str "opf:role") x.role ++
        optAttr (str "opf:scheme") x.scheme
    text := x.value }

/-- An identifier element as `encoding/xml` marshals `IDMeta`. -/
def encIDLeaf (x : IDMeta) : XmlLeaf :=
  { tag := str "identifier"
    attrs := [(str "xmlns", NsDC)] ++ optAttr (str "id") x.id ++
      encOpfDecl (optAttr (str "opf:scheme") x.scheme) ++
      optAttr (str "opf:scheme") x.scheme
    text := x.value }

/-- A generic meta element as `encoding/xml` marshals `Meta` (all attribute
fields carry `omitempty`). -/
def encMetaLeaf (m : Meta) : XmlLeaf :=
  { tag := str "meta"
    attrs := optAttr (str "id") m.id ++ optAttr (str "name") m.name ++
      optAttr (str "content") m.content ++ optAttr (str "property") m.property ++
      optAttr (str "refines") m.refines ++ optAttr (str "scheme") m.scheme
    text := m.value }

/-- `xml.MarshalIndent(r.Package, ...)` (writer.go step 4): generic
struct-to-XML marshaling of the Package, fields in struct order. -/
def marshalOPFByEncodingXml (pkg : Package) : OpfDoc :=
  { rootAttrs := [(str "xmlns", NsOPF), (str "version", pkg.version),
      (str "unique-identifier", pkg.uniqueIdentifier)] ++
      optAttr (str "prefix") pkg.prefixAttr ++ optAttr (str "dir") pkg.dir ++
      optAttr (str "id") pkg.id
    metadataAttrs := []
    metadataChildren :=
      pkg.metadata.titles.map (encSimpleLeaf (str "title")) ++
      pkg.metadata.creators.map (encAuthorLeaf (str "creator")) ++
      pkg.metadata.subjects.map (encSimpleLeaf (str "subject")) ++
      pkg.metadata.descriptions.map (encSimpleLeaf (str "description")) ++
      pkg.metadata.publishers.map (encSimpleLeaf (str "publisher")) ++
      pkg.metadata.contributors.map (encAuthorLeaf (str "contributor")) ++
      pkg.metadata.dates.map (encSimpleLeaf (str "date")) ++
      pkg.metadata.types.map (encSimpleLeaf (str "type")) ++
      pkg.metadata.formats.map (encSimpleLeaf (str "format")) ++
      pkg.metadata.identifiers.map encIDLeaf ++
      pkg.metadata.sources.map (encSimpleLeaf (str "source")) ++
      pkg.metadata.languages.map (encSimpleLeaf (str "language")) ++
      pkg.metadata.rights.map (encSimpleLeaf (str "rights")) ++
      pkg.metadata.meta.map encMetaLeaf
    manifestChildren := pkg.manifest.items.map (fun it =>
      { tag := str "item"
        attrs := [(str "id", it.id), (str "href", it.href),
            (str "media-type", it.mediaType)] ++
          optAttr (str "properties") it.properties ++
          optAttr (str "fallback") it.fallback ++
          optAttr (str "media-overlay") it.mediaOverlay })
    spineAttrs := optAttr (str "toc") pkg.spine.toc ++
      optAttr (str "page-progression-direction") pkg.spine.pageProg
    spineChildren := pkg.spine.itemRefs.map (fun ir =>
      { tag := str "itemref"
        attrs := [(str "idref", ir.idRef)] ++ optAttr (str "linear") ir.linear ++
          optAttr (str "properties") ir.properties })
    guidePresent := pkg.guide.isSome
    guideChildren :=
      match pkg.guide with
      | some g =>
        g.references.map (fun ref =>
          { tag := str "reference"
            attrs := [(str "type", ref.type)] ++ optAttr (str "title") ref.title ++
              [(str "href", ref.href)] })
      | none => [] }

/-- The package-document structure `Save` emits (writer.go serializes the
Package with `xml.MarshalIndent`, not with `marshalOPFWithEtree`). -/
def saveOpfDoc (pkg : Package) : OpfDoc := marshalOPFByEncodingXml pkg

/-- Whether a leaf element carries an attribute with the given key. -/
def leafHasAttrKey (k : Str) (l : XmlLeaf) : Bool :=
  l.attrs.any (fun kv => decide (kv.1 = k))

/-- Whether any element of the document carries an attribute with the
given key. -/
def docHasAttrKey (k : Str) (d : OpfDoc) : Bool :=
  d.rootAttrs.any (fun kv => decide (kv.1 = k)) ||
  d.metadataAttrs.any (fun kv => decide (kv.1 = k)) ||
  d.metadataChildren.any (leafHasAttrKey k) ||
  d.manifestChildren.any (leafHasAttrKey k) ||
  d.spineAttrs.any (fun kv => decide (kv.1 = k)) ||
  d.spineChildren.any (leafHasAttrKey k) ||
  d.guideChildren.any (leafHasAttrKey k)

/-- Whether the document declares an explicit Dublin Core prefix. -/
def usesDCPrefixDecl (d : OpfDoc) : Bool := docHasAttrKey (str "xmlns:dc") d

/-- The concrete package of the C6 counterexample. -/
def c6pkg : Package :=
  { version := str "2.0", uniqueIdentifier := str "bookid",
    metadata := { titles := [{ value := str "T" }] } }

/-! ## Theorems -/

theorem rawOps_append (a b : List WriteOp) : rawOps (a ++ b) = rawOps a ++ rawOps b :=
  List.filterMap_append a b _

theorem rawOps_saveNewReplacements (files : List ZipEntry)
    (reps : List (Str × List Nat)) : rawOps (saveNewReplacements files reps) = [] := by
  simp [saveNewReplacements, rawOps, List.filterMap_map, Function.comp]

theorem rawOps_cons_raw (e : ZipEntry) (t : List WriteOp) :
    rawOps (.raw e :: t) = e :: rawOps t := rfl

theorem rawOps_cons_fresh (n : Str) (m : Nat) (c : List Nat) (t : List WriteOp) :
    rawOps (.fresh n m c :: t) = rawOps t := rfl

theorem rawOps_savePass (opfPath : Str) (reps : List (Str × List Nat))
    (opfContent : List Nat) (files : List ZipEntry) :
    rawOps (savePass opfPath reps opfContent files) =
      files.filter (keptVerbatim opfPath reps) := by
  induction files with
  | nil => rfl
  | cons f rest ih =>
    simp only [savePass, List.filter_cons]
    by_cases h1 : f.name = str "mimetype"
    · rw [if_pos h1, ih]
      simp [keptVerbatim, h1]
    · rw [if_neg h1]
      by_cases h2 : dirSkip f = true
      · rw [if_pos h2, ih]
        simp [keptVerbatim, h2]
      · rw [if_neg h2]
        by_cases h3 : f.name = opfPath
        · rw [if_pos h3, rawOps_cons_fresh, ih]
          simp [keptVerbatim, h3]
        · rw [if_neg h3]
          cases hrep : lookupL reps f.name with
          | some content =>
            simp only [rawOps_cons_fresh, ih]
            simp [keptVerbatim, hrep]
          | none =>
            simp only [rawOps_cons_raw, ih]
            simp [keptVerbatim, h1, h2, h3, hrep]

/-- Claim C1 (counterexample): a directory entry whose path is not
"mimetype", not the package-document path and not a Replacement-Map key is
nevertheless not written to the output at all, so the claim as stated fails
on an archive containing a directory entry. -/
theorem c1_counterexample :
    ¬ rawOps (saveEntries [dirEntryCE] (str "content.opf") [] []) = [dirEntryCE] := by
  decide

/-- Claim C1 (amended): Save copies verbatim, in original Container Index
order and with header and raw compressed payload unchanged, exactly those
original entries whose path is not "mimetype", that are not directory
entries, whose path is not the package-document path, and whose path is not
a key of the Replacement Map. -/
theorem c1_amended_raw_copy (files : List ZipEntry) (opfPath : Str)
    (reps : List (Str × List Nat)) (opfContent : List Nat) :
    rawOps (saveEntries files opfPath reps opfContent) =
      files.filter (keptVerbatim opfPath reps) := by
  show rawOps (writeMimetype :: (_ ++ _)) = _
  rw [show writeMimetype :: (savePass opfPath reps opfContent files ++
        saveNewReplacements files reps) =
      [writeMimetype] ++ (savePass opfPath reps opfContent files ++
        saveNewReplacements files reps) from rfl,
    rawOps_append, rawOps_append, rawOps_saveNewReplacements, rawOps_savePass]
  simp [rawOps, writeMimetype]

/-- Claim C2 (counterexample): the mimetype content `Save` writes first is
the 20-byte string "application/epub+zip", not a 21-byte content as claimed. -/
theorem c2_counterexample :
    (saveEntries [] (str "content.opf") [] []).head? =
      some (.fresh (str "mimetype") zipStore mimetypeBytes)
    ∧ mimetypeBytes.length = 20 ∧ ¬ mimetypeBytes.length = 21 := by
  decide

/-- Claim C2 (amended): for every input archive and entry order, the first
write operation of Save is the entry named "mimetype", stored uncompressed
(`zip.Store`), whose content is exactly the 20 ASCII bytes of
"application/epub+zip" with no trailing whitespace. -/
theorem c2_amended_mimetype_first (files : List ZipEntry) (opfPath : Str)
    (reps : List (Str × List Nat)) (opfContent : List Nat) :
    (saveEntries files opfPath reps opfContent).head? =
      some (.fresh (str "mimetype") zipStore mimetypeBytes)
    ∧ mimetypeBytes = asciiBytes (str "application/epub+zip")
    ∧ mimetypeBytes.length = 20 :=
  ⟨rfl, rfl, by decide⟩

/-- Claim C9 (counterexample): GetLanguage on a Package with an empty
language collection returns "und", not the empty string. -/
theorem c9_counterexample :
    GetLanguage ({} : Package) = str "und" ∧ ¬ GetLanguage ({} : Package) = str "" := by
  decide

/-- Claim C9 (amended): GetTitle, GetAuthor, GetPublisher, GetDescription and
GetPublishDate are simple first-element read accessors returning the empty
string on an empty collection; GetLanguage returns the first language value
when it is non-empty, and the fixed fallback "und" (not the empty string)
when the collection is empty or its first value is empty. -/
theorem c9_amended_first_element_accessors (pkg : Package) :
    GetTitle pkg = firstValueOrEmpty pkg.metadata.titles
    ∧ GetAuthor pkg = firstAuthorValueOrEmpty pkg.metadata.creators
    ∧ GetPublisher pkg = firstValueOrEmpty pkg.metadata.publishers
    ∧ GetDescription pkg = firstValueOrEmpty pkg.metadata.descriptions
    ∧ GetPublishDate pkg = firstValueOrEmpty pkg.metadata.dates
    ∧ GetLanguage pkg =
        (if firstValueOrEmpty pkg.metadata.languages = [] then str "und"
         else firstValueOrEmpty pkg.metadata.languages) := by
  refine ⟨?_, ?_, ?_, ?_, ?_, ?_⟩
  · rcases h : pkg.metadata.titles with _ | ⟨x, xs⟩ <;>
      simp [GetTitle, firstValueOrEmpty, h]
  · rcases h : pkg.metadata.creators with _ | ⟨x, xs⟩ <;>
      simp [GetAuthor, firstAuthorValueOrEmpty, h]
  · rcases h : pkg.metadata.publishers with _ | ⟨x, xs⟩ <;>
      simp [GetPublisher, firstValueOrEmpty, h]
  · rcases h : pkg.metadata.descriptions with _ | ⟨x, xs⟩ <;>
      simp [GetDescription, firstValueOrEmpty, h]
  · rcases h : pkg.metadata.dates with _ | ⟨x, xs⟩ <;>
      simp [GetPublishDate, firstValueOrEmpty, h]
  · rcases h : pkg.metadata.languages with _ | ⟨x, xs⟩
    · simp [GetLanguage, firstValueOrEmpty, h]
    · by_cases hv : x.value = []
      · simp [GetLanguage, firstValueOrEmpty, h, hv]
      · simp [GetLanguage, firstValueOrEmpty, h, hv]

theorem setRatingEntry_of_not_matches (v : Str) (m : Meta)
    (h : ratingEntryMatches m = false) :
    setRatingEntry v m = m ∧ ratingOfMeta m = none ∧ rawRatingOfMeta m = none := by
  have h1 : ¬ m.name = str "calibre:rating" := by
    intro hc; simp [ratingEntryMatches, hc] at h
  have h2 : ¬ m.property = str "calibre:rating" := by
    intro hc; simp [ratingEntryMatches, hc] at h
  refine ⟨?_, ?_, ?_⟩
  · simp [setRatingEntry, h1, h2]
  · simp [ratingOfMeta, h1, h2]
  · simp [rawRatingOfMeta, h1, h2]

theorem setRatingEntry_of_matches (v : Str) (n : Int) (m : Meta)
    (hv : trimSpaceL v = v) (hne : v ≠ []) (hp : goParseInt v = some n)
    (h : ratingEntryMatches m = true) :
    ratingOfMeta (setRatingEntry v m) = some (Int.tdiv n 2)
    ∧ rawRatingOfMeta (setRatingEntry v m) = some v := by
  by_cases h1 : m.name = str "calibre:rating" <;>
    by_cases h2 : m.property = str "calibre:rating"
  · constructor <;> simp [setRatingEntry, ratingOfMeta, rawRatingOfMeta, h1, h2, hv, hne, hp]
  · constructor <;> simp [setRatingEntry, ratingOfMeta, rawRatingOfMeta, h1, h2, hv, hne, hp]
  · constructor <;> simp [setRatingEntry, ratingOfMeta, rawRatingOfMeta, h1, h2, hv, hne, hp]
  · simp [ratingEntryMatches, h1, h2] at h

theorem getRatingLoop_updated (v : Str) (n : Int)
    (hv : trimSpaceL v = v) (hne : v ≠ []) (hp : goParseInt v = some n) :
    ∀ ms : List Meta, ms.any ratingEntryMatches = true →
      getRatingLoop (ms.map (setRatingEntry v)) = Int.tdiv n 2
      ∧ getRatingRawLoop (ms.map (setRatingEntry v)) = v := by
  intro ms
  induction ms with
  | nil => intro h; simp at h
  | cons m rest ih =>
    intro h
    by_cases hm : ratingEntryMatches m = true
    · obtain ⟨e1, e2⟩ := setRatingEntry_of_matches v n m hv hne hp hm
      constructor
      · simp [getRatingLoop, e1]
      · simp [getRatingRawLoop, e2]
    · have hm' : ratingEntryMatches m = false := by
        cases hb : ratingEntryMatches m
        · rfl
        · exact absurd hb hm
      obtain ⟨e0, e1, e2⟩ := setRatingEntry_of_not_matches v m hm'
      have hrest : rest.any ratingEntryMatches = true := by
        simp [List.any_cons, hm'] at h
        simpa using h
      obtain ⟨r1, r2⟩ := ih hrest
      constructor
      · simp [getRatingLoop, e0, e1, r1]
      · simp [getRatingRawLoop, e0, e2, r2]

theorem getRatingLoop_appended (v : Str) (n : Int) (e : Meta)
    (he1 : ratingOfMeta e = some (Int.tdiv n 2)) (he2 : rawRatingOfMeta e = some v) :
    ∀ ms : List Meta, ms.any ratingEntryMatches = false →
      getRatingLoop (ms.map (setRatingEntry v) ++ [e]) = Int.tdiv n 2
      ∧ getRatingRawLoop (ms.map (setRatingEntry v) ++ [e]) = v := by
  intro ms
  induction ms with
  | nil =>
    intro _
    constructor
    · simp [getRatingLoop, he1]
    · simp [getRatingRawLoop, he2]
  | cons m rest ih =>
    intro h
    have hm : ratingEntryMatches m = false := by
      cases hb : ratingEntryMatches m
      · rfl
      · simp [List.any_cons, hb] at h
    have hrest : rest.any ratingEntryMatches = false := by
      simp [List.any_cons, hm] at h
      simpa using h
    obtain ⟨e0, e1, e2⟩ := setRatingEntry_of_not_matches v m hm
    obtain ⟨r1, r2⟩ := ih hrest
    constructor
    · simp [getRatingLoop, e0, e1, r1]
    · simp [getRatingRawLoop, e0, e2, r2]

/-- The doubled clamped rating rendered in decimal parses back with `%d`, and
is a non-blank trimmed digit string (checked for the six possible values). -/
theorem ratingString_roundTrip :
    ∀ k : Nat, k ≤ 5 →
      goParseInt (intToStr ((k : Int) * 2)) = some ((k : Int) * 2)
      ∧ trimSpaceL (intToStr ((k : Int) * 2)) = intToStr ((k : Int) * 2)
      ∧ intToStr ((k : Int) * 2) ≠ [] := by
  decide

theorem goClamp_nonneg (r : Int) : 0 ≤ goClamp r := by
  simp only [goClamp]
  split <;> split <;> omega

theorem goClamp_le_five (r : Int) : goClamp r ≤ 5 := by
  simp only [goClamp]
  split <;> split <;> omega

/-- Claim C5: for r in [-10,15] and every Package state, after SetRating(r),
GetRating returns clamp(r,0,5) and GetRatingRaw returns the decimal string
of 2*clamp(r,0,5). -/
theorem c5_rating_law (pkg : Package) (r : Int) (_hlo : -10 ≤ r) (_hhi : r ≤ 15) :
    GetRating (SetRating pkg r) = goClamp r
    ∧ GetRatingRaw (SetRating pkg r) = intToStr (2 * goClamp r) := by
  have hc0 : 0 ≤ goClamp r := goClamp_nonneg r
  have hc5 : goClamp r ≤ 5 := goClamp_le_five r
  have hk : goClamp r = ((goClamp r).toNat : Int) := (Int.toNat_of_nonneg hc0).symm
  have hk5 : (goClamp r).toNat ≤ 5 := by omega
  obtain ⟨hp, htrim, hne⟩ := ratingString_roundTrip (goClamp r).toNat hk5
  rw [← hk] at hp htrim hne
  have htd : Int.tdiv (goClamp r * 2) 2 = goClamp r := Int.mul_tdiv_cancel _ (by norm_num)
  have hclamp : (if (if r < 0 then 0 else r) > 5 then 5 else if r < 0 then 0 else r) = goClamp r := rfl
  constructor
  · show getRatingLoop _ = _
    simp only [SetRating, hclamp]
    by_cases hfound : pkg.metadata.meta.any ratingEntryMatches = true
    · simp only [hfound, if_true]
      rw [(getRatingLoop_updated _ _ htrim hne hp pkg.metadata.meta hfound).1, htd]
    · have hfound' : pkg.metadata.meta.any ratingEntryMatches = false := by
        cases hb : pkg.metadata.meta.any ratingEntryMatches
        · rfl
        · exact absurd hb hfound
      simp only [hfound', if_false, Bool.false_eq_true]
      by_cases h3 : isEPUB3 pkg = true
      · simp only [h3, if_true]
        have he1 : ratingOfMeta { property := str "calibre:rating", value := intToStr (goClamp r * 2) } = some (Int.tdiv (goClamp r * 2) 2) := by
          simp [ratingOfMeta, htrim, hne, hp]
        rw [(getRatingLoop_appended _ _ _ he1 (by simp [rawRatingOfMeta, htrim, hne])
          pkg.metadata.meta hfound').1, htd]
      · have he1 : ratingOfMeta { name := str "calibre:rating", content := intToStr (goClamp r * 2) } = some (Int.tdiv (goClamp r * 2) 2) := by
          simp [ratingOfMeta, hp, str]
        rw [if_neg h3,
          (getRatingLoop_appended _ _ _ he1 (by simp [rawRatingOfMeta, str])
            pkg.metadata.meta hfound').1, htd]
  · show getRatingRawLoop _ = _
    rw [Int.mul_comm 2 (goClamp r)]
    simp only [SetRating, hclamp]
    by_cases hfound : pkg.metadata.meta.any ratingEntryMatches = true
    · simp only [hfound, if_true]
      exact (getRatingLoop_updated _ _ htrim hne hp pkg.metadata.meta hfound).2
    · have hfound' : pkg.metadata.meta.any ratingEntryMatches = false := by
        cases hb : pkg.metadata.meta.any ratingEntryMatches
        · rfl
        · exact absurd hb hfound
      simp only [hfound', if_false, Bool.false_eq_true]
      by_cases h3 : isEPUB3 pkg = true
      · simp only [h3, if_true]
        exact (getRatingLoop_appended _ (goClamp r * 2) _
          (by simp [ratingOfMeta, htrim, hne, hp])
          (by simp [rawRatingOfMeta, htrim, hne]) pkg.metadata.meta hfound').2
      · rw [if_neg h3]
        exact (getRatingLoop_appended _ (goClamp r * 2) _
          (by simp [ratingOfMeta, hp, str]) (by simp [rawRatingOfMeta, str])
          pkg.metadata.meta hfound').2

/-- Claim C5 witness: concrete instantiation at r = 3 on the empty package. -/
theorem c5_rating_law_witness :
    (-10 ≤ (3 : Int)) ∧ ((3 : Int) ≤ 15)
    ∧ (GetRating (SetRating ({} : Package) 3) = goClamp 3
       ∧ GetRatingRaw (SetRating ({} : Package) 3) = intToStr (2 * goClamp 3)) :=
  ⟨by decide, by decide, c5_rating_law ({} : Package) 3 (by decide) (by decide)⟩

theorem dedupAux_not_mem_seen (seen items : List Str) :
    ∀ a ∈ dedupAux seen items, a ∉ seen := by
  induction items generalizing seen with
  | nil => intro a ha; simp [dedupAux] at ha
  | cons x rest ih =>
    intro a ha
    by_cases hx : x ∈ seen
    · exact ih seen a (by simpa [dedupAux, hx] using ha)
    · simp only [dedupAux, if_neg hx, List.mem_cons] at ha
      rcases ha with rfl | ha
      · exact hx
      · have h2 := ih (x :: seen) a ha
        intro hc
        exact h2 (List.mem_cons_of_mem _ hc)

theorem dedupAux_nodup (seen items : List Str) : (dedupAux seen items).Nodup := by
  induction items generalizing seen with
  | nil => simp [dedupAux]
  | cons x rest ih =>
    by_cases hx : x ∈ seen
    · simpa [dedupAux, hx] using ih seen
    · simp only [dedupAux, if_neg hx]
      refine List.nodup_cons.2 ⟨?_, ih (x :: seen)⟩
      intro hc
      exact dedupAux_not_mem_seen (x :: seen) rest x hc (List.mem_cons_self x seen)

theorem dedupAux_sublist (seen items : List Str) :
    List.Sublist (dedupAux seen items) items := by
  induction items generalizing seen with
  | nil => simp [dedupAux]
  | cons x rest ih =>
    by_cases hx : x ∈ seen
    · simpa [dedupAux, hx] using (ih seen).cons x
    · simpa [dedupAux, hx] using (ih (x :: seen)).cons₂ x

theorem dedupAux_mem (seen items : List Str) (a : Str) :
    a ∈ dedupAux seen items ↔ a ∈ items ∧ a ∉ seen := by
  induction items generalizing seen with
  | nil => simp [dedupAux]
  | cons x rest ih =>
    by_cases hx : x ∈ seen
    · rw [dedupAux, if_pos hx, ih]
      constructor
      · rintro ⟨h1, h2⟩
        exact ⟨List.mem_cons_of_mem _ h1, h2⟩
      · rintro ⟨h1, h2⟩
        rcases List.mem_cons.1 h1 with rfl | h1
        · exact absurd hx h2
        · exact ⟨h1, h2⟩
    · rw [dedupAux, if_neg hx]
      constructor
      · intro h
        rcases List.mem_cons.1 h with rfl | h
        · exact ⟨List.mem_cons_self _ _, hx⟩
        · rcases (ih (x :: seen)).1 h with ⟨h1, h2⟩
          exact ⟨List.mem_cons_of_mem _ h1, fun hc => h2 (List.mem_cons_of_mem _ hc)⟩
      · rintro ⟨h1, h2⟩
        rcases List.mem_cons.1 h1 with rfl | h1
        · exact List.mem_cons_self _ _
        · by_cases hax : a = x
          · subst hax
            exact List.mem_cons_self _ _
          · refine List.mem_cons_of_mem _ ((ih (x :: seen)).2 ⟨h1, ?_⟩)
            intro hc
            rcases List.mem_cons.1 hc with h | h
            · exact hax h
            · exact h2 h

theorem dedupAux_eq_filter_firstSeen (items : List Str) : ∀ seen : List Str,
    dedupAux seen items =
      (specFirstSeenDedup items).filter (fun y => decide (y ∉ seen)) := by
  induction items with
  | nil => intro seen; simp [dedupAux, specFirstSeenDedup]
  | cons x rest ih =>
    intro seen
    by_cases hx : x ∈ seen
    · rw [dedupAux, if_pos hx, ih seen, specFirstSeenDedup, List.filter_cons]
      have hpx : (decide (x ∉ seen)) = false := by simpa using hx
      rw [hpx]
      simp only [Bool.false_eq_true, if_false, List.filter_filter]
      have hfun : (fun y : Str => decide (y ∉ seen) && decide (y ≠ x)) =
          (fun y : Str => decide (y ∉ seen)) := by
        funext y
        by_cases hy : y = x
        · subst hy; simp [hx]
        · simp [hy]
      rw [hfun]
    · rw [dedupAux, if_neg hx, ih (x :: seen), specFirstSeenDedup, List.filter_cons]
      have hpx : (decide (x ∉ seen)) = true := by simpa using hx
      rw [hpx]
      simp only [if_true, List.filter_filter]
      have hfun : (fun y : Str => decide (y ∉ x :: seen)) =
          (fun y : Str => decide (y ∉ seen) && decide (y ≠ x)) := by
        funext y
        by_cases hy : y = x
        · subst hy; simp
        · simp [List.mem_cons, hy]
      rw [hfun]

theorem deduplicateStrings_eq_firstSeen (items : List Str) :
    deduplicateStrings items = specFirstSeenDedup items := by
  rw [deduplicateStrings, dedupAux_eq_filter_firstSeen]
  simp

theorem commaFallback_few_segments (s : Str)
    (h : (splitOnL (str ",") (replaceAllL s (str "，") (str ","))).length ≤ 2) :
    commaFallback s = [s] := by
  by_cases hc : (containsL s (str ",") || containsL s (str "，")) = true
  · rw [commaFallback, if_pos hc]
    rcases hp : splitOnL (str ",") (replaceAllL s (str "，") (str ",")) with
      _ | ⟨p0, _ | ⟨p1, rest⟩⟩
    · simp [hp]
    · simp [hp]
    · rw [hp] at h
      have hrest : rest = [] := by
        cases rest
        · rfl
        · simp at h
      subst hrest
      simp [hp]
  · rw [commaFallback, if_neg hc]

/-- Claim C7: GetAuthors splits creators on the safe delimiters, only falls
back to comma-splitting when three or more comma segments are present (the
two-segment and no-comma cases are returned unsplit), reproduces the three
documented examples, and deduplicates the results preserving first-seen
order: GetAuthors equals the spec's first-occurrence dedup of the
concatenated parses exactly (in particular no duplicates, a subsequence of
the concatenated parses, and exactly their elements). -/
theorem c7_author_splitting :
    parseAuthorString (str "张三、李四") = [str "张三", str "李四"]
    ∧ parseAuthorString (str "Doe, John") = [str "Doe, John"]
    ∧ parseAuthorString (str "A, B, C") = [str "A", str "B", str "C"]
    ∧ (∀ s : Str, trySafeDelims safeDelimiters (trimSpaceL s) = none →
        (splitOnL (str ",")
          (replaceAllL (trimSpaceL s) (str "，") (str ","))).length ≤ 2 →
        parseAuthorString s = if trimSpaceL s = [] then [] else [trimSpaceL s])
    ∧ (∀ pkg : Package,
        GetAuthors pkg =
          specFirstSeenDedup
            ((pkg.metadata.creators.map (fun c => parseAuthorString c.value)).flatten)
        ∧ (GetAuthors pkg).Nodup
        ∧ List.Sublist (GetAuthors pkg)
            ((pkg.metadata.creators.map (fun c => parseAuthorString c.value)).flatten)
        ∧ ∀ a, a ∈ GetAuthors pkg ↔
            a ∈ (pkg.metadata.creators.map (fun c => parseAuthorString c.value)).flatten) := by
  refine ⟨by decide, by decide, by decide, ?_, ?_⟩
  · intro s h1 h2
    by_cases htrim : trimSpaceL s = []
    · simp [parseAuthorString, htrim]
    · simp only [parseAuthorString, if_neg htrim, h1]
      exact commaFallback_few_segments _ h2
  · intro pkg
    refine ⟨deduplicateStrings_eq_firstSeen _, dedupAux_nodup [] _, dedupAux_sublist [] _, ?_⟩
    intro a
    rw [show GetAuthors pkg = dedupAux [] _ from rfl, dedupAux_mem]
    simp

/-- Claim C7 witness: the two-comma-segment guarantee instantiated at the
creator value "Doe, John". -/
theorem c7_author_splitting_witness :
    parseAuthorString (str "Doe, John") =
      (if trimSpaceL (str "Doe, John") = [] then []
       else [trimSpaceL (str "Doe, John")]) :=
  c7_author_splitting.2.2.2.1 (str "Doe, John") (by decide) (by decide)

theorem mapGet_mapUpsert_self (m : List (Str × Str)) (k v : Str) :
    mapGet (mapUpsert m k v) k = some v := by
  induction m with
  | nil => simp [mapUpsert, mapGet]
  | cons kv rest ih =>
    obtain ⟨k0, v0⟩ := kv
    by_cases h : k0 = k
    · simp [mapUpsert, mapGet, h]
    · simp [mapUpsert, mapGet, h, ih]

theorem mapGet_mapUpsert_other (m : List (Str × Str)) (k v k2 : Str) (h : k2 ≠ k) :
    mapGet (mapUpsert m k v) k2 = mapGet m k2 := by
  induction m with
  | nil =>
    simp only [mapUpsert, mapGet]
    rw [if_neg (fun hc => h hc.symm)]
  | cons kv rest ih =>
    obtain ⟨k0, v0⟩ := kv
    by_cases h0 : k0 = k
    · subst h0
      simp only [mapUpsert, if_pos rfl, mapGet]
      rw [if_neg (fun hc => h hc.symm), if_neg (fun hc => h hc.symm)]
    · simp only [mapUpsert, if_neg h0, mapGet]
      by_cases h2 : k0 = k2
      · simp [h2]
      · simp [h2, ih]

theorem matchValues_cons (k : Str) (idm : IDMeta) (rest : List IDMeta) :
    matchValues k (idm :: rest) =
      if (parseIdentifier idm.scheme idm.value).1 = k then
        (parseIdentifier idm.scheme idm.value).2 :: matchValues k rest
      else matchValues k rest := by
  by_cases h : (parseIdentifier idm.scheme idm.value).1 = k <;>
    simp [matchValues, List.filterMap_cons, h]

theorem getLast?_cons_ne_none (a : Str) (t : List Str) : (a :: t).getLast? ≠ none := by
  induction t generalizing a with
  | nil => simp
  | cons b t ih =>
    rw [List.getLast?_cons_cons]
    exact ih b

theorem buildIdentifiers_get (k : Str)
    (hk1 : k ≠ []) (hk2 : k ≠ str "uuid") (hk3 : k ≠ str "unknown") :
    ∀ (ids : List IDMeta) (m : List (Str × Str)),
      mapGet (buildIdentifiers m ids) k = ((matchValues k ids).getLast?).or (mapGet m k) := by
  intro ids
  induction ids with
  | nil => intro m; simp [buildIdentifiers, matchValues]
  | cons idm rest ih =>
    intro m
    rw [matchValues_cons]
    by_cases hpub : (parseIdentifier idm.scheme idm.value).1 ≠ [] ∧
        (parseIdentifier idm.scheme idm.value).1 ≠ str "uuid" ∧
        (parseIdentifier idm.scheme idm.value).1 ≠ str "unknown"
    · rw [show buildIdentifiers m (idm :: rest) =
          buildIdentifiers (mapUpsert m (parseIdentifier idm.scheme idm.value).1
            (parseIdentifier idm.scheme idm.value).2) rest by
        simp [buildIdentifiers, hpub]]
      rw [ih]
      by_cases hkk : (parseIdentifier idm.scheme idm.value).1 = k
      · rw [if_pos hkk, hkk]
        rcases hmv : matchValues k rest with _ | ⟨a, t⟩
        · simp [mapGet_mapUpsert_self m k _]
        · rcases hw : (a :: t).getLast? with _ | w
          · exact absurd hw (getLast?_cons_ne_none a t)
          · rw [List.getLast?_cons_cons, hw]
            simp
      · rw [if_neg hkk,
          mapGet_mapUpsert_other m (parseIdentifier idm.scheme idm.value).1
            (parseIdentifier idm.scheme idm.value).2 k (fun hc => hkk hc.symm)]
    · rw [show buildIdentifiers m (idm :: rest) = buildIdentifiers m rest by
        simp [buildIdentifiers, hpub]]
      have hkk : ¬ (parseIdentifier idm.scheme idm.value).1 = k := by
        intro hc
        push_neg at hpub
        rcases Decidable.em ((parseIdentifier idm.scheme idm.value).1 = []) with h | h
        · exact hk1 (hc ▸ h)
        · rcases Decidable.em ((parseIdentifier idm.scheme idm.value).1 = str "uuid") with
            h2 | h2
          · exact hk2 (hc ▸ h2)
          · exact hk3 (hc ▸ hpub h h2)
      rw [if_neg hkk, ih]

/-- Claim C10: when two or more identifiers parse to the same public scheme
(not uuid, not unknown), GetIdentifiers maps that scheme to the parsed value
of the last such identifier in document order, overwriting the earlier
ones. -/
theorem c10_last_wins (pkg : Package) (k : Str)
    (hk1 : k ≠ []) (hk2 : k ≠ str "uuid") (hk3 : k ≠ str "unknown")
    (_hdup : 2 ≤ (identifierMatches pkg k).length) :
    mapGet (GetIdentifiers pkg) k = (identifierMatches pkg k).getLast? := by
  rw [show GetIdentifiers pkg = buildIdentifiers [] pkg.metadata.identifiers from rfl,
    buildIdentifiers_get k hk1 hk2 hk3 pkg.metadata.identifiers [],
    show matchValues k pkg.metadata.identifiers = identifierMatches pkg k from rfl]
  rcases h : (identifierMatches pkg k).getLast? with _ | v
  · simp [mapGet]
  · simp

/-- Claim C10 witness: two identifiers both classifying as isbn; the map
holds the parsed value of the second one. -/
theorem c10_last_wins_witness :
    (2 ≤ (identifierMatches { metadata := { identifiers :=
        [{ scheme := str "ISBN", value := str "9780306406157" },
         { scheme := str "isbn", value := str "9780000000000" }] } } (str "isbn")).length)
    ∧ mapGet (GetIdentifiers { metadata := { identifiers :=
        [{ scheme := str "ISBN", value := str "9780306406157" },
         { scheme := str "isbn", value := str "9780000000000" }] } }) (str "isbn") =
      (identifierMatches { metadata := { identifiers :=
        [{ scheme := str "ISBN", value := str "9780306406157" },
         { scheme := str "isbn", value := str "9780000000000" }] } } (str "isbn")).getLast? :=
  ⟨by decide,
   c10_last_wins _ (str "isbn") (by decide) (by decide) (by decide) (by decide)⟩

/-- Claim C3 (counterexample): with two ISBN identifiers, SetISBN rewrites
both of them; the second (subsequent duplicate) identifier does not keep its
stored value, refuting the claim that it is left untouched. -/
theorem c3_counterexample :
    (SetISBN c3pkg (str "9781111111111")).metadata.identifiers =
      [{ scheme := str "ISBN", value := str "9781111111111" },
       { scheme := str "ISBN", value := str "9781111111111" }]
    ∧ c3pkg.metadata.identifiers.getD 1 {} =
        { scheme := str "ISBN", value := str "9780000000000" }
    ∧ (SetISBN c3pkg (str "9781111111111")).metadata.identifiers.getD 1 {} ≠
        c3pkg.metadata.identifiers.getD 1 {} := by
  decide

/-- Claim C3 (amended): when at least one identifier classifies as ISBN,
SetISBN keeps the identifier list length and rewrites every ISBN-classified
identifier in place through the per-identifier rewrite (the first and all
subsequent duplicates alike), while every identifier not classifying as ISBN
is left untouched. -/
theorem c3_amended_all_isbn_rewritten (pkg : Package) (isbn : Str)
    (hfound : pkg.metadata.identifiers.any isbnLike = true) :
    ((SetISBN pkg isbn).metadata.identifiers).length = pkg.metadata.identifiers.length
    ∧ (∀ i : Nat, (SetISBN pkg isbn).metadata.identifiers[i]? =
        (pkg.metadata.identifiers[i]?).map (fun idm =>
          if isbnLike idm then
            setISBNRewrite (isEPUB3 pkg) (trimSpaceL isbn) (cleanISBN isbn)
              (isbnInputHasSep isbn) idm
          else idm))
    ∧ (∀ (i : Nat) (idm : IDMeta), pkg.metadata.identifiers[i]? = some idm → isbnLike idm = false →
        (SetISBN pkg isbn).metadata.identifiers[i]? = some idm) := by
  have hrw : (SetISBN pkg isbn).metadata.identifiers =
      pkg.metadata.identifiers.map (fun idm =>
        if isbnLike idm then
          setISBNRewrite (isEPUB3 pkg) (trimSpaceL isbn) (cleanISBN isbn)
            (isbnInputHasSep isbn) idm
        else idm) := by
    simp only [SetISBN, hfound, if_true]
  refine ⟨?_, ?_, ?_⟩
  · rw [hrw, List.length_map]
  · intro i
    rw [hrw, List.getElem?_map]
  · intro i idm hi hnot
    rw [hrw, List.getElem?_map, hi]
    simp [hnot]

/-- Claim C3 witness: the amended statement instantiated on the two-ISBN
package; the hypothesis is discharged by computation. -/
theorem c3_amended_witness :
    (c3pkg.metadata.identifiers.any isbnLike = true)
    ∧ ((SetISBN c3pkg (str "9781111111111")).metadata.identifiers).length =
        c3pkg.metadata.identifiers.length :=
  ⟨by decide,
   (c3_amended_all_isbn_rewritten c3pkg (str "9781111111111") (by decide)).1⟩

/-- Claim C4 (code behavior at the failing input): on a version-3.0 package
carrying only a legacy calibre:series tag and no collection structure,
SetSeriesIndex("7") is a no-op: the package is unchanged, GetSeriesIndex
still returns the empty string, and no entry stores the index "7" in either
the property or the name shape, contradicting the claimed dedicated
property-style legacy entry (which the repository's own test
TestSetSeriesIndexEPUB3_LegacyOnlyFallback expects). -/
theorem c4_code_behavior :
    SetSeriesIndex c4pkg (str "7") = c4pkg
    ∧ GetSeriesIndex (SetSeriesIndex c4pkg (str "7")) = []
    ∧ (SetSeriesIndex c4pkg (str "7")).metadata.meta.all
        (fun m => !(decide (m.property = str "calibre:series_index") &&
                    decide (m.value = str "7")) &&
                  !(decide (m.name = str "calibre:series_index") &&
                    decide (m.content = str "7"))) = true := by
  decide

theorem expandByte_ne_nil (b : Nat) : expandByte b ≠ [] := by
  simp only [expandByte]
  split <;> simp

theorem expandByte_length_le (b : Nat) : (expandByte b).length ≤ 2 := by
  simp only [expandByte]
  split <;> simp

theorem flatMap_expandByte_length_le (l : List Nat) :
    (l.flatMap expandByte).length ≤ 2 * l.length := by
  induction l with
  | nil => simp
  | cons b t ih =>
    simp only [List.flatMap_cons, List.length_append, List.length_cons]
    have := expandByte_length_le b
    omega

theorem flatMap_expandByte_ne_nil (l : List Nat) (h : l ≠ []) :
    l.flatMap expandByte ≠ [] := by
  rcases l with _ | ⟨b, t⟩
  · exact absurd rfl h
  · simp only [List.flatMap_cons]
    intro hc
    exact expandByte_ne_nil b (List.append_eq_nil.1 hc).1

theorem flatMap_expandByte_length_ge (l : List Nat) :
    l.length ≤ (l.flatMap expandByte).length := by
  induction l with
  | nil => simp
  | cons b t ih =>
    simp only [List.flatMap_cons, List.length_append, List.length_cons]
    have hb : 1 ≤ (expandByte b).length := by
      rcases hv : expandByte b with _ | ⟨y, ys⟩
      · exact absurd hv (expandByte_ne_nil b)
      · simp
    omega

theorem latin1Read_pending (np : Nat) (b : Nat) (pb : List Nat)
    (chunks : List (List Nat)) :
    latin1Read ⟨b :: pb, chunks⟩ (np + 1) =
      ((b :: pb).take (np + 1), ⟨(b :: pb).drop (np + 1), chunks⟩) := by
  simp [latin1Read]

theorem latin1Read_eof (np : Nat) : latin1Read ⟨[], []⟩ (np + 1) = ([], ⟨[], []⟩) := by
  simp [latin1Read]

theorem latin1Read_chunk (np : Nat) (c : List Nat) (cs : List (List Nat)) :
    latin1Read ⟨[], c :: cs⟩ (np + 1) =
      (((c.take (min (np + 1) 4096)).flatMap expandByte).take (np + 1),
       ⟨((c.take (min (np + 1) 4096)).flatMap expandByte).drop (np + 1),
        if c.drop (min (np + 1) 4096) = [] then cs else c.drop (min (np + 1) 4096) :: cs⟩) := by
  simp [latin1Read]

theorem chunksMeasure_cons (c : List Nat) (cs : List (List Nat)) :
    chunksMeasure (c :: cs) = 2 * c.length + 1 + chunksMeasure cs := rfl

theorem latin1Read_measure (st : L1State) (np : Nat)
    (h : ¬(st.pending = [] ∧ st.chunks = [])) :
    l1Measure (latin1Read st (np + 1)).2 < l1Measure st := by
  rcases st with ⟨pending, chunks⟩
  rcases pending with _ | ⟨b, pb⟩
  · rcases chunks with _ | ⟨c, cs⟩
    · exact absurd ⟨rfl, rfl⟩ h
    · rw [latin1Read_chunk]
      show (((c.take (min (np + 1) 4096)).flatMap expandByte).drop (np + 1)).length +
          chunksMeasure (if c.drop (min (np + 1) 4096) = [] then cs
            else c.drop (min (np + 1) 4096) :: cs) <
        l1Measure ⟨[], c :: cs⟩
      have hexp := flatMap_expandByte_length_le (c.take (min (np + 1) 4096))
      have hge := flatMap_expandByte_length_ge (c.take (min (np + 1) 4096))
      have htl : (c.take (min (np + 1) 4096)).length = min (min (np + 1) 4096) c.length :=
        List.length_take _ _
      have hrl : (c.drop (min (np + 1) 4096)).length = c.length - min (np + 1) 4096 :=
        List.length_drop _ _
      rw [List.length_drop]
      show _ < [].length + chunksMeasure (c :: cs)
      rw [chunksMeasure_cons]
      by_cases hrest : c.drop (min (np + 1) 4096) = []
      · rw [if_pos hrest]
        have h0 : (c.drop (min (np + 1) 4096)).length = 0 := by rw [hrest]; rfl
        omega
      · rw [if_neg hrest, chunksMeasure_cons]
        have h1 : 1 ≤ (c.drop (min (np + 1) 4096)).length := by
          rcases hv : c.drop (min (np + 1) 4096) with _ | ⟨y, ys⟩
          · exact absurd hv hrest
          · simp
        omega
  · rw [latin1Read_pending]
    show ((b :: pb).drop (np + 1)).length + chunksMeasure chunks < l1Measure ⟨b :: pb, chunks⟩
    rw [List.length_drop]
    show _ < (b :: pb).length + chunksMeasure chunks
    simp only [List.length_cons]
    omega

theorem latin1Read_step (st : L1State) (np : Nat) :
    (latin1Read st (np + 1)).1 ++ l1Rem (latin1Read st (np + 1)).2 = l1Rem st := by
  rcases st with ⟨pending, chunks⟩
  rcases pending with _ | ⟨b, pb⟩
  · rcases chunks with _ | ⟨c, cs⟩
    · rw [latin1Read_eof]
      rfl
    · rw [latin1Read_chunk]
      show ((c.take (min (np + 1) 4096)).flatMap expandByte).take (np + 1) ++
          (((c.take (min (np + 1) 4096)).flatMap expandByte).drop (np + 1) ++
            (if c.drop (min (np + 1) 4096) = [] then cs
             else c.drop (min (np + 1) 4096) :: cs).flatten.flatMap expandByte) =
        l1Rem ⟨[], c :: cs⟩
      rw [← List.append_assoc, List.take_append_drop]
      show _ = [] ++ (c :: cs).flatten.flatMap expandByte
      rw [List.nil_append, List.flatten_cons, List.flatMap_append]
      by_cases hrest : c.drop (min (np + 1) 4096) = []
      · rw [if_pos hrest]
        have hc : c.take (min (np + 1) 4096) = c := by
          have h2 := List.take_append_drop (min (np + 1) 4096) c
          rw [hrest, List.append_nil] at h2
          exact h2
        rw [hc]
      · rw [if_neg hrest, List.flatten_cons, List.flatMap_append,
          ← List.append_assoc, ← List.flatMap_append, List.take_append_drop]
  · rw [latin1Read_pending]
    show (b :: pb).take (np + 1) ++
        ((b :: pb).drop (np + 1) ++ chunks.flatten.flatMap expandByte) =
      l1Rem ⟨b :: pb, chunks⟩
    rw [← List.append_assoc, List.take_append_drop]
    rfl

theorem l1DrainFuel_rem (sizes : Nat → Nat) :
    ∀ (fuel i : Nat) (st : L1State), l1Measure st ≤ fuel →
      l1DrainFuel sizes fuel i st = l1Rem st := by
  intro fuel
  induction fuel with
  | zero =>
    intro i st hst
    have hp : st.pending = [] := by
      rcases hp : st.pending with _ | ⟨b, t⟩
      · rfl
      · rw [show l1Measure st = st.pending.length + chunksMeasure st.chunks from rfl, hp]
          at hst
        simp at hst
    have hcs : st.chunks = [] := by
      rcases hcs : st.chunks with _ | ⟨c, t⟩
      · rfl
      · rw [show l1Measure st = st.pending.length + chunksMeasure st.chunks from rfl,
          hcs, chunksMeasure_cons] at hst
        omega
    rw [show l1DrainFuel sizes 0 i st = [] from rfl, l1Rem, hp, hcs]
    rfl
  | succ n ih =>
    intro i st hst
    by_cases hfin : st.pending = [] ∧ st.chunks = []
    · rw [show l1DrainFuel sizes (n + 1) i st =
          (if st.pending = [] ∧ st.chunks = [] then []
           else (latin1Read st (sizes i + 1)).1 ++
             l1DrainFuel sizes n (i + 1) (latin1Read st (sizes i + 1)).2) from rfl,
        if_pos hfin, l1Rem, hfin.1, hfin.2]
      rfl
    · rw [show l1DrainFuel sizes (n + 1) i st =
          (if st.pending = [] ∧ st.chunks = [] then []
           else (latin1Read st (sizes i + 1)).1 ++
             l1DrainFuel sizes n (i + 1) (latin1Read st (sizes i + 1)).2) from rfl,
        if_neg hfin]
      have hless := latin1Read_measure st (sizes i) hfin
      rw [ih (i + 1) _ (by omega)]
      exact latin1Read_step st (sizes i)

theorem l1Drain_rem (sizes : Nat → Nat) (i : Nat) (st : L1State) :
    l1Drain sizes i st = l1Rem st :=
  l1DrainFuel_rem sizes (l1Measure st) i st le_rfl

set_option maxRecDepth 4096 in
theorem expandByte_eq_spec : ∀ b : Nat, b < 256 →
    expandByte b = (if b < 128 then [b] else [192 + b / 64, 128 + b % 64]) := by
  decide

theorem flatMap_expandByte_eq_spec :
    ∀ l : List Nat, (∀ b ∈ l, b < 256) → l.flatMap expandByte = specLatin1Expansion l := by
  intro l
  induction l with
  | nil => intro _; rfl
  | cons b t ih =>
    intro hl
    simp only [specLatin1Expansion, List.flatMap_cons] at ih ⊢
    rw [expandByte_eq_spec b (hl b (List.mem_cons_self b t)),
      ih (fun x hx => hl x (List.mem_cons_of_mem b hx))]

/-- Claim C8: for every source byte sequence, every partition of it into
chunks handed out by the underlying reader, and every sequence of positive
caller buffer sizes, the concatenation of the outputs of the successive
Read calls equals the per-byte Latin-1-to-UTF-8 expansion of the source; no
byte is lost, duplicated or reordered at buffer boundaries. -/
theorem c8_latin1_stream (chunks : List (List Nat)) (sizes : Nat → Nat)
    (hbytes : ∀ b ∈ chunks.flatten, b < 256) :
    l1Drain sizes 0 ⟨[], chunks⟩ = specLatin1Expansion chunks.flatten := by
  rw [l1Drain_rem sizes 0 ⟨[], chunks⟩]
  show [] ++ (chunks.flatten).flatMap expandByte = _
  rw [List.nil_append]
  exact flatMap_expandByte_eq_spec chunks.flatten hbytes

/-- Claim C8 witness: a two-chunk source with a high byte crossing a
one-byte buffer. -/
theorem c8_latin1_stream_witness :
    (∀ b ∈ ([[65, 233], [200]] : List (List Nat)).flatten, b < 256)
    ∧ l1Drain (fun _ => 0) 0 ⟨[], [[65, 233], [200]]⟩ =
        specLatin1Expansion ([[65, 233], [200]] : List (List Nat)).flatten :=
  ⟨by decide, c8_latin1_stream [[65, 233], [200]] (fun _ => 0) (by decide)⟩

theorem any_key_optAttr (k v k2 : Str) :
    (optAttr k v).any (fun kv => decide (kv.1 = k2)) =
      (decide (v ≠ []) && decide (k = k2)) := by
  by_cases h : v = [] <;> simp [optAttr, h]

theorem any_key_encOpfDecl (l : List (Str × Str)) (k2 : Str) :
    (encOpfDecl l).any (fun kv => decide (kv.1 = k2)) =
      (decide (l ≠ []) && decide ((str "xmlns:opf" : Str) = k2)) := by
  by_cases h : l = [] <;> simp [encOpfDecl, h]

theorem encSimpleLeaf_no_dc (tag : Str) (x : SimpleMeta) :
    leafHasAttrKey (str "xmlns:dc") (encSimpleLeaf tag x) = false := by
  simp only [leafHasAttrKey, encSimpleLeaf, List.any_append, any_key_optAttr,
    List.any_cons, List.any_nil]
  rw [show decide ((str "xmlns" : Str) = str "xmlns:dc") = false from by decide,
    show decide ((str "id" : Str) = str "xmlns:dc") = false from by decide,
    show decide ((str "dir" : Str) = str "xmlns:dc") = false from by decide,
    show decide ((str "xml:lang" : Str) = str "xmlns:dc") = false from by decide]
  simp

theorem encAuthorLeaf_no_dc (tag : Str) (x : AuthorMeta) :
    leafHasAttrKey (str "xmlns:dc") (encAuthorLeaf tag x) = false := by
  simp only [leafHasAttrKey, encAuthorLeaf, List.any_append, any_key_optAttr,
    any_key_encOpfDecl, List.any_cons, List.any_nil]
  rw [show decide ((str "xmlns" : Str) = str "xmlns:dc") = false from by decide,
    show decide ((str "id" : Str) = str "xmlns:dc") = false from by decide,
    show decide ((str "dir" : Str) = str "xmlns:dc") = false from by decide,
    show decide ((str "xml:lang" : Str) = str "xmlns:dc") = false from by decide,
    show decide ((str "xmlns:opf" : Str) = str "xmlns:dc") = false from by decide,
    show decide ((str "opf:file-as" : Str) = str "xmlns:dc") = false from by decide,
    show decide ((str "opf:role" : Str) = str "xmlns:dc") = false from by decide,
    show decide ((str "opf:scheme" : Str) = str "xmlns:dc") = false from by decide]
  simp

theorem encIDLeaf_no_dc (x : IDMeta) :
    leafHasAttrKey (str "xmlns:dc") (encIDLeaf x) = false := by
  simp only [leafHasAttrKey, encIDLeaf, List.any_append, any_key_optAttr,
    any_key_encOpfDecl, List.any_cons, List.any_nil]
  rw [show decide ((str "xmlns" : Str) = str "xmlns:dc") = false from by decide,
    show decide ((str "id" : Str) = str "xmlns:dc") = false from by decide,
    show decide ((str "xmlns:opf" : Str) = str "xmlns:dc") = false from by decide,
    show decide ((str "opf:scheme" : Str) = str "xmlns:dc") = false from by decide]
  simp

theorem encMetaLeaf_no_dc (m : Meta) :
    leafHasAttrKey (str "xmlns:dc") (encMetaLeaf m) = false := by
  simp only [leafHasAttrKey, encMetaLeaf, List.any_append, any_key_optAttr]
  rw [show decide ((str "id" : Str) = str "xmlns:dc") = false from by decide,
    show decide ((str "name" : Str) = str "xmlns:dc") = false from by decide,
    show decide ((str "content" : Str) = str "xmlns:dc") = false from by decide,
    show decide ((str "property" : Str) = str "xmlns:dc") = false from by decide,
    show decide ((str "refines" : Str) = str "xmlns:dc") = false from by decide,
    show decide ((str "scheme" : Str) = str "xmlns:dc") = false from by decide]
  simp

theorem encItemLeaf_no_dc (it : Item) :
    leafHasAttrKey (str "xmlns:dc")
      { tag := str "item"
        attrs := [(str "id", it.id), (str "href", it.href),
            (str "media-type", it.mediaType)] ++
          optAttr (str "properties") it.properties ++
          optAttr (str "fallback") it.fallback ++
          optAttr (str "media-overlay") it.mediaOverlay } = false := by
  simp only [leafHasAttrKey, List.any_append, any_key_optAttr, List.any_cons, List.any_nil]
  rw [show decide ((str "id" : Str) = str "xmlns:dc") = false from by decide,
    show decide ((str "href" : Str) = str "xmlns:dc") = false from by decide,
    show decide ((str "media-type" : Str) = str "xmlns:dc") = false from by decide,
    show decide ((str "properties" : Str) = str "xmlns:dc") = false from by decide,
    show decide ((str "fallback" : Str) = str "xmlns:dc") = false from by decide,
    show decide ((str "media-overlay" : Str) = str "xmlns:dc") = false from by decide]
  simp

theorem encItemRefLeaf_no_dc (ir : ItemRef) :
    leafHasAttrKey (str "xmlns:dc")
      { tag := str "itemref"
        attrs := [(str "idref", ir.idRef)] ++ optAttr (str "linear") ir.linear ++
          optAttr (str "properties") ir.properties } = false := by
  simp only [leafHasAttrKey, List.any_append, any_key_optAttr, List.any_cons, List.any_nil]
  rw [show decide ((str "idref" : Str) = str "xmlns:dc") = false from by decide,
    show decide ((str "linear" : Str) = str "xmlns:dc") = false from by decide,
    show decide ((str "properties" : Str) = str "xmlns:dc") = false from by decide]
  simp

theorem encRefLeaf_no_dc (ref : Reference) :
    leafHasAttrKey (str "xmlns:dc")
      { tag := str "reference"
        attrs := [(str "type", ref.type)] ++ optAttr (str "title") ref.title ++
          [(str "href", ref.href)] } = false := by
  simp only [leafHasAttrKey, List.any_append, any_key_optAttr, List.any_cons, List.any_nil]
  rw [show decide ((str "type" : Str) = str "xmlns:dc") = false from by decide,
    show decide ((str "title" : Str) = str "xmlns:dc") = false from by decide,
    show decide ((str "href" : Str) = str "xmlns:dc") = false from by decide]
  simp

theorem usesDCPrefixDecl_encodingXml (pkg : Package) :
    usesDCPrefixDecl (marshalOPFByEncodingXml pkg) = false := by
  simp only [usesDCPrefixDecl, docHasAttrKey, marshalOPFByEncodingXml, List.any_append,
    List.any_map, Function.comp_def, encSimpleLeaf_no_dc, encAuthorLeaf_no_dc,
    encIDLeaf_no_dc, encMetaLeaf_no_dc, encItemLeaf_no_dc, encItemRefLeaf_no_dc,
    any_key_optAttr, List.any_cons, List.any_nil]
  rw [show decide ((str "xmlns" : Str) = str "xmlns:dc") = false from by decide,
    show decide ((str "version" : Str) = str "xmlns:dc") = false from by decide,
    show decide ((str "unique-identifier" : Str) = str "xmlns:dc") = false from by decide,
    show decide ((str "prefix" : Str) = str "xmlns:dc") = false from by decide,
    show decide ((str "dir" : Str) = str "xmlns:dc") = false from by decide,
    show decide ((str "id" : Str) = str "xmlns:dc") = false from by decide,
    show decide ((str "toc" : Str) = str "xmlns:dc") = false from by decide,
    show decide ((str "page-progression-direction" : Str) = str "xmlns:dc") = false
      from by decide]
  rcases pkg.guide with _ | g <;>
    simp only [List.map_nil, List.any_nil, Bool.or_false, List.any_map, Function.comp_def,
      List.any_eq_false, Bool.or_eq_false_iff, decide_eq_false_iff_not] <;>
    repeat' apply And.intro
  all_goals try intro a ha
  all_goals try rcases List.mem_map.1 ha with ⟨b, hb, rfl⟩
  any_goals trivial
  any_goals
    first
      | (rw [encSimpleLeaf_no_dc]; exact Bool.false_ne_true)
      | (rw [encAuthorLeaf_no_dc]; exact Bool.false_ne_true)
      | (rw [encIDLeaf_no_dc]; exact Bool.false_ne_true)
      | (rw [encMetaLeaf_no_dc]; exact Bool.false_ne_true)
      | (rw [encItemLeaf_no_dc]; exact Bool.false_ne_true)
      | (rw [encItemRefLeaf_no_dc]; exact Bool.false_ne_true)
      | (rw [encRefLeaf_no_dc]; exact Bool.false_ne_true)
  all_goals simp

/-- Claim C6 (counterexample): on a one-title package, the document Save
emits carries no explicit Dublin Core prefix declaration and names the title
element "title" (URL-default namespacing of the generic marshaller), while
the direct etree emitter would declare xmlns:dc and write "dc:title"; the
two serializers disagree, and Save uses the generic one. -/
theorem c6_counterexample :
    usesDCPrefixDecl (saveOpfDoc c6pkg) = false
    ∧ usesDCPrefixDecl (marshalOPFWithEtree c6pkg) = true
    ∧ saveOpfDoc c6pkg ≠ marshalOPFWithEtree c6pkg
    ∧ (saveOpfDoc c6pkg).metadataChildren.map XmlLeaf.tag = [str "title"]
    ∧ (marshalOPFWithEtree c6pkg).metadataChildren.map XmlLeaf.tag = [str "dc:title"] := by
  decide

/-- Claim C6 (amended): the package-document structure Save writes is
produced by generic struct-to-XML marshaling (xml.MarshalIndent of the
Package), which never declares a Dublin Core prefix; the direct emitter with
explicit xmlns:dc/xmlns:opf declarations (marshalOPFWithEtree) exists in the
code base but is not the one Save invokes. -/
theorem c6_amended_generic_marshal (pkg : Package) :
    saveOpfDoc pkg = marshalOPFByEncodingXml pkg
    ∧ usesDCPrefixDecl (saveOpfDoc pkg) = false
    ∧ usesDCPrefixDecl (marshalOPFWithEtree pkg) = true := by
  refine ⟨rfl, usesDCPrefixDecl_encodingXml pkg, ?_⟩
  simp [usesDCPrefixDecl, docHasAttrKey, marshalOPFWithEtree]

end Epub
